import Mathlib

/-!
Verification development for the VRM/GLB binary container codec of
`src/services/vrmService.ts` (functions `parseGlb`, `extractTextures`,
`rebuildGlb`).

Modelling conventions:
* A byte buffer (JS `ArrayBuffer` / `Uint8Array`) is a `List Nat` of byte
  values; multi-byte reads take each entry modulo 256, which is the identity
  on genuine byte buffers.
* The structural JSON document is modelled by the record `Doc`, restricted to
  the fields the codec reads or writes (`images`, `bufferViews`, `buffers`,
  `textures`), each `Option`-valued because the code distinguishes a missing
  field (JS `undefined`) from a present one.  String values (names, MIME
  types) are kept as their raw UTF-8 byte lists.
* `JSON.stringify` of such a document is the byte-level printer `printDoc`;
  `TextDecoder` + `JSON.parse` of a chunk is the byte-level parser `jparse`
  over generic JSON values (`JVal`), implementing the full JSON grammar —
  so a chunk parsing to a falsy value (`null`, `false`, `0`, `""`) is
  representable, as the `!json` check of the source requires.  The parser
  keeps numbers as their literal parts and `\uXXXX` string escapes as
  code-unit entries; `docOfJVal` is the typed view of a parsed value, and
  `parseDocBytes` (the deep-clone path) is `jparse` followed by that view.
* JS string `.length` counts UTF-16 code units; on the UTF-8 bytes of the
  string this is the number of non-continuation bytes, counting 4-byte
  sequence leaders twice (`jsLen`).  This distinction is load-bearing for the
  JSON-chunk padding computation in `rebuildGlb`.
* Fallible code is `Except`/`Option`; JS `TypeError`s from touching fields of
  `undefined` become explicit error constructors.
-/

deriving instance DecidableEq for Except

/-! ## Byte-level primitives -/

/-- Byte of a buffer at index `i` (0 when out of range), reduced mod 256. -/
def byteAt (s : List Nat) (i : Nat) : Nat := s.getD i 0 % 256

/-- Model of `DataView.getUint32(off, true)`: little-endian 32-bit read; `none` models
the `RangeError` thrown when fewer than 4 bytes remain. -/
def readU32 (s : List Nat) (off : Nat) : Option Nat :=
  if off + 4 ≤ s.length then
    some (byteAt s off + 256 * byteAt s (off + 1) + 65536 * byteAt s (off + 2) +
      16777216 * byteAt s (off + 3))
  else none

/-- Model of `DataView.setUint32(_, n, true)`: the four little-endian bytes of `n`
(truncated to 32 bits like the JS setter). -/
def u32le (n : Nat) : List Nat :=
  [n % 256, n / 256 % 256, n / 65536 % 256, n / 16777216 % 256]

/-- Model of `Uint8Array.prototype.slice(start, stop)`: clamping, never throwing. -/
def sliceJs (s : List Nat) (start stop : Nat) : List Nat :=
  (s.take stop).drop start

/-- Model of `new Uint8Array(buffer, off, len)`: a view of `len` bytes at `off`;
`none` models the `RangeError` when the range exceeds the buffer. -/
def subarrayView (s : List Nat) (off len : Nat) : Option (List Nat) :=
  if off + len ≤ s.length then some ((s.drop off).take len) else none

/-! ## The structural document (restricted to the codec's fields) -/

/-- An entry of `doc.images`: `{ bufferView, mimeType, name? }`. -/
structure Image where
  bufferView : Nat
  mimeType : List Nat
  name : Option (List Nat)
  deriving DecidableEq, Repr

/-- An entry of `doc.bufferViews`: `{ byteOffset, byteLength }`. -/
structure BufferView where
  byteOffset : Nat
  byteLength : Nat
  deriving DecidableEq, Repr

/-- An entry of `doc.buffers`: `{ byteLength }`. -/
structure Buffer where
  byteLength : Nat
  deriving DecidableEq, Repr

/-- An entry of `doc.textures`: `{ source, name? }`. -/
structure Texture where
  source : Nat
  name : Option (List Nat)
  deriving DecidableEq, Repr

/-- The structural document, restricted to the fields the codec touches.
Each field is `Option`-valued: `none` models the field being absent. -/
structure Doc where
  images : Option (List Image)
  bufferViews : Option (List BufferView)
  buffers : Option (List Buffer)
  textures : Option (List Texture)
  deriving DecidableEq, Repr

/-! ## JSON serialization (`JSON.stringify`), byte level

The printer emits exactly what `JSON.stringify` produces on such a document:
no whitespace, keys in insertion order (fixed here as the declaration order
of the fields), strings escaped the way `JSON.stringify` escapes them
(quote, backslash, and control characters; all other bytes pass through). -/

def kImages : List Nat := [34, 105, 109, 97, 103, 101, 115, 34, 58]
def kBufferViews : List Nat := [34, 98, 117, 102, 102, 101, 114, 86, 105, 101, 119, 115, 34, 58]
def kBuffers : List Nat := [34, 98, 117, 102, 102, 101, 114, 115, 34, 58]
def kTextures : List Nat := [34, 116, 101, 120, 116, 117, 114, 101, 115, 34, 58]
def kBufferView : List Nat := [34, 98, 117, 102, 102, 101, 114, 86, 105, 101, 119, 34, 58]
def kMimeType : List Nat := [34, 109, 105, 109, 101, 84, 121, 112, 101, 34, 58]
def kName : List Nat := [34, 110, 97, 109, 101, 34, 58]
def kByteOffset : List Nat := [34, 98, 121, 116, 101, 79, 102, 102, 115, 101, 116, 34, 58]
def kByteLength : List Nat := [34, 98, 121, 116, 101, 76, 101, 110, 103, 116, 104, 34, 58]
def kSource : List Nat := [34, 115, 111, 117, 114, 99, 101, 34, 58]

/-- Lowercase hexadecimal digit, as `JSON.stringify` uses in action escapes. -/
def hexDigit (x : Nat) : Nat := if x < 10 then 48 + x else 87 + x

/-- How `JSON.stringify` escapes one byte inside a string literal. -/
def escapeByte (b : Nat) : List Nat :=
  if b = 34 then [92, 34]
  else if b = 92 then [92, 92]
  else if b < 32 then
    if b = 8 then [92, 98]
    else if b = 9 then [92, 116]
    else if b = 10 then [92, 110]
    else if b = 12 then [92, 102]
    else if b = 13 then [92, 114]
    else [92, 117, 48, 48, hexDigit (b / 16), hexDigit (b % 16)]
  else [b]

/-- A JSON string literal: quote, escaped content bytes, quote. -/
def printStr (s : List Nat) : List Nat := 34 :: (s.map escapeByte).flatten ++ [34]

/-- Little-endian decimal digits of `n`; `fuel ≥ n` makes it total and
structurally recursive (kernel-reducible), agreeing with `Nat.digits 10`. -/
def natDigitsRev : Nat → Nat → List Nat
  | _, 0 => []
  | 0, _ + 1 => []
  | fuel + 1, n + 1 => ((n + 1) % 10) :: natDigitsRev fuel ((n + 1) / 10)

/-- Decimal ASCII representation of a natural, as `JSON.stringify` prints it. -/
def printNat (n : Nat) : List Nat :=
  if n = 0 then [48] else ((natDigitsRev n n).reverse.map (· + 48))

/-- Serialize one `images[]` entry. -/
def printImage (im : Image) : List Nat :=
  123 :: kBufferView ++ printNat im.bufferView ++ 44 :: kMimeType ++ printStr im.mimeType ++
    (match im.name with
     | none => [125]
     | some n => 44 :: kName ++ printStr n ++ [125])

/-- Serialize one `bufferViews[]` entry. -/
def printBufferView (bv : BufferView) : List Nat :=
  123 :: kByteOffset ++ printNat bv.byteOffset ++ 44 :: kByteLength ++
    printNat bv.byteLength ++ [125]

/-- Serialize one `buffers[]` entry. -/
def printBuffer (b : Buffer) : List Nat :=
  123 :: kByteLength ++ printNat b.byteLength ++ [125]

/-- Serialize one `textures[]` entry. -/
def printTexture (t : Texture) : List Nat :=
  123 :: kSource ++ printNat t.source ++
    (match t.name with
     | none => [125]
     | some n => 44 :: kName ++ printStr n ++ [125])

/-- Comma-separated concatenation of already-serialized array elements. -/
def printElems {α : Type} (pr : α → List Nat) : List α → List Nat
  | [] => []
  | [a] => pr a
  | a :: rest => pr a ++ 44 :: printElems pr rest

/-- A JSON array of serialized elements. -/
def printList {α : Type} (pr : α → List Nat) (l : List α) : List Nat :=
  91 :: printElems pr l ++ [93]

/-- The document's present members, each serialized as `"key":value`. -/
def docMembers (d : Doc) : List (List Nat) :=
  (match d.images with
   | some l => [kImages ++ printList printImage l]
   | none => []) ++
  (match d.bufferViews with
   | some l => [kBufferViews ++ printList printBufferView l]
   | none => []) ++
  (match d.buffers with
   | some l => [kBuffers ++ printList printBuffer l]
   | none => []) ++
  (match d.textures with
   | some l => [kTextures ++ printList printTexture l]
   | none => [])

/-- Comma-separated concatenation of the members. -/
def joinComma : List (List Nat) → List Nat
  | [] => []
  | [m] => m
  | m :: ms => m ++ 44 :: joinComma ms

/-- Model of `JSON.stringify(doc)` at the byte level. -/
def printDoc (d : Doc) : List Nat := 123 :: joinComma (docMembers d) ++ [125]

/-! ## JSON parsing (`JSON.parse`), byte level

A recursive-descent parser for the JSON grammar (`TextDecoder` then
`JSON.parse`), producing generic JSON values: the code feeds `JSON.parse`
arbitrary chunk payloads, so the model must accept everything the grammar
accepts — including documents that parse to a falsy value, which the
`!json` check at line 45 then treats like a missing chunk. -/

/-- ASCII decimal digit test. -/
def isDigitB (b : Nat) : Bool := 48 ≤ b && b ≤ 57

/-- Value of an ASCII hex digit. -/
def fromHexDigit (b : Nat) : Option Nat :=
  if 48 ≤ b ∧ b ≤ 57 then some (b - 48)
  else if 97 ≤ b ∧ b ≤ 102 then some (b - 87)
  else none

/-- Parse a string body (after the opening quote) up to the closing quote,
undoing the JSON escapes (`JSON.parse` also accepts the solidus escape,
which `JSON.stringify` never emits).  A `\uXXXX` escape is recorded as its
code-unit value in one entry rather than re-encoded as UTF-8 bytes; no
claim depends on such content. -/
def pStr : List Nat → Option (List Nat × List Nat)
  | [] => none
  | b :: rest =>
    if b = 34 then some ([], rest)
    else if b = 92 then
      match rest with
      | [] => none
      | e :: r2 =>
        if e = 34 then (pStr r2).map (fun p => (34 :: p.1, p.2))
        else if e = 92 then (pStr r2).map (fun p => (92 :: p.1, p.2))
        else if e = 98 then (pStr r2).map (fun p => (8 :: p.1, p.2))
        else if e = 116 then (pStr r2).map (fun p => (9 :: p.1, p.2))
        else if e = 110 then (pStr r2).map (fun p => (10 :: p.1, p.2))
        else if e = 102 then (pStr r2).map (fun p => (12 :: p.1, p.2))
        else if e = 114 then (pStr r2).map (fun p => (13 :: p.1, p.2))
        else if e = 47 then (pStr r2).map (fun p => (47 :: p.1, p.2))
        else if e = 117 then
          match r2 with
          | h1 :: h2 :: h3 :: h4 :: r3 =>
            match fromHexDigit h1, fromHexDigit h2, fromHexDigit h3, fromHexDigit h4 with
            | some d1, some d2, some d3, some d4 =>
              (pStr r3).map (fun p => ((((d1 * 16 + d2) * 16 + d3) * 16 + d4) :: p.1, p.2))
            | _, _, _, _ => none
          | _ => none
        else none
    else if b < 32 then none
    else (pStr rest).map (fun p => (b :: p.1, p.2))

/-- JSON whitespace. -/
def isJsonWs (b : Nat) : Bool := b = 32 || b = 9 || b = 10 || b = 13

/-! ## Generic JSON values and the full `JSON.parse` grammar -/

/-- A parsed JSON value, as `JSON.parse` produces (the shapes relevant to the
codec).  Numbers are kept as their literal parts (sign, integer digits,
fraction digits, exponent digits): the codec only ever asks whether a number
is zero (for the `!json` truthiness check) or reads a plain natural (field
projection), so no float arithmetic is modelled.  String contents are byte
lists; a `\uXXXX` escape is recorded as its code-unit value in one entry
(not re-encoded as UTF-8) — no claim depends on such content. -/
inductive JVal where
  | jnull
  | jbool (b : Bool)
  | jnum (neg : Bool) (ip fp ep : List Nat)
  | jstr (s : List Nat)
  | jarr (elems : List JVal)
  | jobj (fields : List (List Nat × JVal))

/-- Parsing mode of the single fueled parser `pJ`: a value, the remaining
elements of an array, or the remaining members of an object. -/
inductive PMode where
  | val
  | elems (acc : List JVal)
  | members (acc : List (List Nat × JVal))

/-- Drop leading JSON whitespace. -/
def skipWs (s : List Nat) : List Nat := s.dropWhile isJsonWs

/-- Integer part of a JSON number: `0`, or a nonzero digit followed by more
digits (JSON forbids leading zeros). -/
def pIntPart : List Nat → Option (List Nat × List Nat)
  | [] => none
  | b :: r =>
    if b = 48 then some ([48], r)
    else if isDigitB b then some (b :: r.takeWhile isDigitB, r.dropWhile isDigitB)
    else none

/-- Optional fraction part: a `.` must be followed by at least one digit. -/
def pFracPart (s : List Nat) : Option (List Nat × List Nat) :=
  if s.head? = some 46 then
    match s.tail.takeWhile isDigitB with
    | [] => none
    | ds => some (ds, s.tail.dropWhile isDigitB)
  else some ([], s)

/-- Optional exponent part: `e`/`E`, an optional sign, then at least one digit. -/
def pExpPart (s : List Nat) : Option (List Nat × List Nat) :=
  if s.head? = some 101 ∨ s.head? = some 69 then
    (match (if s.tail.head? = some 43 ∨ s.tail.head? = some 45 then s.tail.tail else s.tail) with
     | r2 =>
       match r2.takeWhile isDigitB with
       | [] => none
       | ds => some (ds, r2.dropWhile isDigitB))
  else some ([], s)

/-- Number body after the optional minus sign. -/
def pJNumBody (neg : Bool) (s1 : List Nat) : Option (JVal × List Nat) :=
  match pIntPart s1 with
  | none => none
  | some (ip, s2) =>
    match pFracPart s2 with
    | none => none
    | some (fp, s3) =>
      match pExpPart s3 with
      | none => none
      | some (ep, s4) => some (JVal.jnum neg ip fp ep, s4)

/-- Parse a JSON number literal off the front. -/
def pJNum (s : List Nat) : Option (JVal × List Nat) :=
  if s.head? = some 45 then pJNumBody true s.tail else pJNumBody false s

/-- The recursive-descent JSON value parser (the grammar of `JSON.parse`):
literals, strings (via `pStr`), numbers, arrays and objects, with JSON
whitespace between tokens.  The fuel only bounds the recursion depth of the
grammar; every recursive call consumes at least one input byte first, so
`input length + 1` fuel never runs out on an accepted input. -/
def pJ : Nat → PMode → List Nat → Option (JVal × List Nat)
  | 0, _, _ => none
  | fuel + 1, PMode.val, s =>
    match s with
    | [] => none
    | b :: r =>
      if b = 110 then
        (match r with
         | 117 :: 108 :: 108 :: r2 => some (JVal.jnull, r2)
         | _ => none)
      else if b = 116 then
        (match r with
         | 114 :: 117 :: 101 :: r2 => some (JVal.jbool true, r2)
         | _ => none)
      else if b = 102 then
        (match r with
         | 97 :: 108 :: 115 :: 101 :: r2 => some (JVal.jbool false, r2)
         | _ => none)
      else if b = 34 then (pStr r).map (fun p => (JVal.jstr p.1, p.2))
      else if b = 91 then
        (match skipWs r with
         | 93 :: r2 => some (JVal.jarr [], r2)
         | _ => pJ fuel (PMode.elems []) r)
      else if b = 123 then
        (match skipWs r with
         | 125 :: r2 => some (JVal.jobj [], r2)
         | _ => pJ fuel (PMode.members []) r)
      else pJNum (b :: r)
  | fuel + 1, PMode.elems acc, s =>
    match pJ fuel PMode.val (skipWs s) with
    | none => none
    | some (v, r) =>
      match skipWs r with
      | 44 :: r2 => pJ fuel (PMode.elems (acc ++ [v])) r2
      | 93 :: r2 => some (JVal.jarr (acc ++ [v]), r2)
      | _ => none
  | fuel + 1, PMode.members acc, s =>
    match skipWs s with
    | 34 :: r =>
      (match pStr r with
       | none => none
       | some (key, r2) =>
         match skipWs r2 with
         | 58 :: r3 =>
           (match pJ fuel PMode.val (skipWs r3) with
            | none => none
            | some (v, r4) =>
              match skipWs r4 with
              | 44 :: r5 => pJ fuel (PMode.members (acc ++ [(key, v)])) r5
              | 125 :: r5 => some (JVal.jobj (acc ++ [(key, v)]), r5)
              | _ => none)
         | _ => none)
    | _ => none

/-- Model of `JSON.parse(new TextDecoder().decode(bytes))`: one JSON value
surrounded by optional whitespace; `none` models `JSON.parse` throwing. -/
def jparse (s : List Nat) : Option JVal :=
  match pJ (s.length + 1) PMode.val (skipWs s) with
  | some (v, r) => if r.all isJsonWs then some v else none
  | none => none

/-- JS falsiness of a parsed JSON value, as the `!json` check at line 45 of
the source sees it: `null`, `false`, a zero number and the empty string are
falsy; arrays and objects are always truthy.  A number is zero exactly when
all its mantissa digits are `0` (literals that merely round to zero in
float64, below about 5e-324, are outside the model's scope). -/
def jfalsy : JVal → Bool
  | .jnull => true
  | .jbool b => !b
  | .jnum _ ip fp _ => (ip ++ fp).all (fun d => d = 48)
  | .jstr s => s.isEmpty
  | .jarr _ => false
  | .jobj _ => false


/-! ## The typed view of a parsed value (the fields the codec touches) -/

/-- Field-name byte lists (without quotes or colon) of the keys the codec
reads. -/
def nmImages : List Nat := [105, 109, 97, 103, 101, 115]
def nmBufferViews : List Nat := [98, 117, 102, 102, 101, 114, 86, 105, 101, 119, 115]
def nmBuffers : List Nat := [98, 117, 102, 102, 101, 114, 115]
def nmTextures : List Nat := [116, 101, 120, 116, 117, 114, 101, 115]
def nmBufferView : List Nat := [98, 117, 102, 102, 101, 114, 86, 105, 101, 119]
def nmMimeType : List Nat := [109, 105, 109, 101, 84, 121, 112, 101]
def nmName : List Nat := [110, 97, 109, 101]
def nmByteOffset : List Nat := [98, 121, 116, 101, 79, 102, 102, 115, 101, 116]
def nmByteLength : List Nat := [98, 121, 116, 101, 76, 101, 110, 103, 116, 104]
def nmSource : List Nat := [115, 111, 117, 114, 99, 101]

/-- Reading a field of a JS object built from parsed members: when a key was
written twice, the later write wins. -/
def jLookup (key : List Nat) (fields : List (List Nat × JVal)) : Option JVal :=
  (fields.filter (fun p => p.1 == key)).getLast?.map Prod.snd

/-- Value of a list of ASCII decimal digits. -/
def digitsVal (ds : List Nat) : Nat := ds.foldl (fun a d => 10 * a + (d - 48)) 0

/-- A plain natural number field (an unsigned integer literal without
fraction or exponent — the only number shape the codec's documents use). -/
def asNat : Option JVal → Option Nat
  | some (JVal.jnum false ip [] []) => some (digitsVal ip)
  | _ => none

/-- A string field. -/
def asStr : Option JVal → Option (List Nat)
  | some (JVal.jstr s) => some s
  | _ => none

/-- An array field. -/
def asList : Option JVal → Option (List JVal)
  | some (JVal.jarr l) => some l
  | _ => none

/-- Convert every element, failing if any element fails. -/
def traverseOption {α β : Type} (f : α → Option β) : List α → Option (List β)
  | [] => some []
  | a :: t =>
    match f a, traverseOption f t with
    | some b, some bs => some (b :: bs)
    | _, _ => none

/-- The typed view of one `images[]` entry. -/
def toImage (v : JVal) : Option Image :=
  match v with
  | JVal.jobj fs =>
    (match asNat (jLookup nmBufferView fs), asStr (jLookup nmMimeType fs) with
     | some bvi, some m =>
       some { bufferView := bvi, mimeType := m, name := asStr (jLookup nmName fs) }
     | _, _ => none)
  | _ => none

/-- The typed view of one `bufferViews[]` entry. -/
def toBufferView (v : JVal) : Option BufferView :=
  match v with
  | JVal.jobj fs =>
    (match asNat (jLookup nmByteOffset fs), asNat (jLookup nmByteLength fs) with
     | some o, some l => some { byteOffset := o, byteLength := l }
     | _, _ => none)
  | _ => none

/-- The typed view of one `buffers[]` entry. -/
def toBuffer (v : JVal) : Option Buffer :=
  match v with
  | JVal.jobj fs =>
    (match asNat (jLookup nmByteLength fs) with
     | some l => some { byteLength := l }
     | none => none)
  | _ => none

/-- The typed view of one `textures[]` entry. -/
def toTexture (v : JVal) : Option Texture :=
  match v with
  | JVal.jobj fs =>
    (match asNat (jLookup nmSource fs) with
     | some n => some { source := n, name := asStr (jLookup nmName fs) }
     | none => none)
  | _ => none

/-- The typed view `Doc` of a parsed JSON value: project the four fields the
codec touches when they have the expected shape; a field of any other shape
is treated as absent (the claims never depend on such fields). -/
def docOfJVal : JVal → Doc
  | JVal.jobj fs =>
    { images := (asList (jLookup nmImages fs)).bind (traverseOption toImage)
      bufferViews := (asList (jLookup nmBufferViews fs)).bind (traverseOption toBufferView)
      buffers := (asList (jLookup nmBuffers fs)).bind (traverseOption toBuffer)
      textures := (asList (jLookup nmTextures fs)).bind (traverseOption toTexture) }
  | _ => { images := none, bufferViews := none, buffers := none, textures := none }

/-- Model of `JSON.parse(new TextDecoder().decode(bytes))` followed by the
codec reading the document's fields: the generic parse, then the typed view.
In the deep-clone path (line 141 of the source) the input is itself
`JSON.stringify` output of such a view, on which this is exact. -/
def parseDocBytes (s : List Nat) : Option Doc := (jparse s).map docOfJVal

/-! ## The denotation of the printer's output as a generic JSON value -/

/-- The number value `JSON.stringify` emits for a natural. -/
def jnumOfNat (n : Nat) : JVal := JVal.jnum false (printNat n) [] []

/-- The parsed value of a serialized `images[]` entry. -/
def jvalOfImage (im : Image) : JVal :=
  JVal.jobj ([(nmBufferView, jnumOfNat im.bufferView), (nmMimeType, JVal.jstr im.mimeType)] ++
    (match im.name with
     | none => []
     | some nm => [(nmName, JVal.jstr nm)]))

/-- The parsed value of a serialized `bufferViews[]` entry. -/
def jvalOfBufferView (bv : BufferView) : JVal :=
  JVal.jobj [(nmByteOffset, jnumOfNat bv.byteOffset), (nmByteLength, jnumOfNat bv.byteLength)]

/-- The parsed value of a serialized `buffers[]` entry. -/
def jvalOfBuffer (b : Buffer) : JVal :=
  JVal.jobj [(nmByteLength, jnumOfNat b.byteLength)]

/-- The parsed value of a serialized `textures[]` entry. -/
def jvalOfTexture (t : Texture) : JVal :=
  JVal.jobj ([(nmSource, jnumOfNat t.source)] ++
    (match t.name with
     | none => []
     | some nm => [(nmName, JVal.jstr nm)]))

/-- One serialized member of the document object, as used in the round-trip
proof: field-name bytes, serialized value bytes, the value it parses to, and
the parser fuel the value needs. -/
structure PMember where
  nm : List Nat
  pv : List Nat
  jv : JVal
  nd : Nat

/-- The bytes of one serialized member. -/
def mbBytes (m : PMember) : List Nat := 34 :: m.nm ++ 34 :: 58 :: m.pv

/-- Total parser fuel a member list needs. -/
def tnNeed : List PMember → Nat
  | [] => 0
  | m :: t => m.nd + 2 + tnNeed t

/-- The document's present members with their parses. -/
def docPMembers (d : Doc) : List PMember :=
  (match d.images with
   | some l =>
     [⟨nmImages, printList printImage l, JVal.jarr (l.map jvalOfImage), l.length + 6⟩]
   | none => []) ++
  (match d.bufferViews with
   | some l =>
     [⟨nmBufferViews, printList printBufferView l, JVal.jarr (l.map jvalOfBufferView),
       l.length + 6⟩]
   | none => []) ++
  (match d.buffers with
   | some l =>
     [⟨nmBuffers, printList printBuffer l, JVal.jarr (l.map jvalOfBuffer), l.length + 6⟩]
   | none => []) ++
  (match d.textures with
   | some l =>
     [⟨nmTextures, printList printTexture l, JVal.jarr (l.map jvalOfTexture), l.length + 6⟩]
   | none => [])

/-- The generic JSON value `printDoc d` parses to. -/
def jvalOfDoc (d : Doc) : JVal :=
  JVal.jobj ((docPMembers d).map (fun m => (m.nm, m.jv)))

/-- Parser fuel `printDoc d` needs (always at most its length plus one). -/
def docNeed (d : Doc) : Nat := tnNeed (docPMembers d) + 2


/-! ## Container parser (`parseGlb`) -/

/-- The GLB magic number `0x46546C67`. -/
def GLB_MAGIC : Nat := 0x46546c67

/-- Chunk type tag of the structural (JSON) chunk. -/
def JSON_CHUNK_TYPE : Nat := 0x4e4f534a

/-- Chunk type tag of the raw (BIN) chunk. -/
def BIN_CHUNK_TYPE : Nat := 0x004e4942

/-- The parser's failure modes.  `badMagic`, `badVersion` and `missingChunk`
are the format errors thrown explicitly by `parseGlb`; `rangeErr` models a
`RangeError` from `DataView.getUint32` or the `Uint8Array` view constructor;
`jsonErr` models `JSON.parse` throwing on the JSON chunk's payload. -/
inductive ParseErr where
  | badMagic
  | badVersion
  | rangeErr
  | jsonErr
  | missingChunk
  deriving DecidableEq, Repr

/-- The chunk-scanning loop of `parseGlb` (lines 28-43 of the source): while
`off < buf.length`, read a chunk length and type, keep a JSON chunk's parsed
value or a BIN chunk's payload (a later duplicate overwrites an earlier
one — JS variable assignment), silently skip unknown types, and advance past
the chunk.  A JSON chunk is decoded with `jparse` (`JSON.parse`); the parsed
value is kept even when it is falsy, exactly as the `json` variable holds it.
Each iteration advances `off` by at least 8, so `buf.length + 1` fuel is
always enough; at fuel 0 the (unreachable for such fuel) fallback returns the
accumulated chunks. -/
def scanChunks (buf : List Nat) :
    Nat → Nat → Option JVal → Option (List Nat) →
    Except ParseErr (Option JVal × Option (List Nat))
  | 0, _, j, b => Except.ok (j, b)
  | fuel + 1, off, j, b =>
    if off < buf.length then
      match readU32 buf off, readU32 buf (off + 4) with
      | some chunkLen, some chunkType =>
        if chunkType = JSON_CHUNK_TYPE then
          match subarrayView buf (off + 8) chunkLen with
          | some bytes =>
            match jparse bytes with
            | some jv => scanChunks buf fuel (off + 8 + chunkLen) (some jv) b
            | none => Except.error .jsonErr
          | none => Except.error .rangeErr
        else if chunkType = BIN_CHUNK_TYPE then
          match subarrayView buf (off + 8) chunkLen with
          | some bytes => scanChunks buf fuel (off + 8 + chunkLen) j (some bytes)
          | none => Except.error .rangeErr
        else scanChunks buf fuel (off + 8 + chunkLen) j b
      | _, _ => Except.error .rangeErr
    else Except.ok (j, b)

/-- The parser `parseGlb` (lines 14-50): check magic and version, scan the chunks,
then the line-45 check `if (!json || !bin) throw`: the JSON value must have been
assigned AND be truthy (a present JSON chunk parsing to `null`, `false`, `0` or
the empty string fails here too), and the BIN chunk must have been assigned (a
`Uint8Array` is always truthy).  On success the caller receives the parsed
document, rendered as its typed view. -/
def parseGlb (buf : List Nat) : Except ParseErr (Doc × List Nat) :=
  match readU32 buf 0 with
  | none => Except.error .rangeErr
  | some magic =>
    if magic ≠ GLB_MAGIC then Except.error .badMagic
    else
      match readU32 buf 4 with
      | none => Except.error .rangeErr
      | some version =>
        if version ≠ 2 then Except.error .badVersion
        else
          match scanChunks buf (buf.length + 1) 12 none none with
          | Except.error e => Except.error e
          | Except.ok (some jv, some b) =>
            if jfalsy jv then Except.error .missingChunk
            else Except.ok (docOfJVal jv, b)
          | Except.ok (_, _) => Except.error .missingChunk

/-! ## Asset extractor (`extractTextures`) -/

/-- The extractor's per-asset handle (`TextureInfo` without the
platform-only fields: `blobUrl` is represented by the owned byte slice
`data`, and the probed pixel dimensions are not modelled). -/
structure TexInfo where
  index : Nat
  name : List Nat
  data : List Nat
  mimeType : List Nat
  bufferViewIndex : Nat
  deriving DecidableEq, Repr

/-- The extractor's failure modes: `typeErr` models the `TypeError` from
reading `.byteOffset` of `undefined` when `image.bufferView` indexes outside
`bufferViews`; `decodeErr` models the dimension probe's image-decode
rejection. -/
inductive ExtractErr where
  | typeErr
  | decodeErr
  deriving DecidableEq, Repr

/-- JS `a || b` on two possibly-undefined strings: keep `a` when it is a
truthy (present, non-empty) string. -/
def jsOrOpt (a b : Option (List Nat)) : Option (List Nat) :=
  match a with
  | some s => if s = [] then b else some s
  | none => b

/-- JS `a || b` where `b` is a definite string. -/
def jsOr (a : Option (List Nat)) (b : List Nat) : List Nat :=
  match a with
  | some s => if s = [] then b else s
  | none => b

/-- ASCII bytes of the template literal prefix of the fallback name. -/
def texturePrefix : List Nat := [84, 101, 120, 116, 117, 114, 101, 32]

/-- The fallback display name: the template literal with the image index. -/
def textureDefaultName (i : Nat) : List Nat := texturePrefix ++ printNat i

/-- Build the handle for image `im` at index `i` (lines 62–80): resolve the
bufferView, take the clamped slice of the raw block, and resolve the display
name with the JS truthiness chain
`textures?.find(t => t.source === i)?.name || image.name || fallback`. -/
def texInfoFor (bvs : List BufferView) (texs : Option (List Texture))
    (bin : List Nat) (i : Nat) (im : Image) : Option TexInfo :=
  match bvs[im.bufferView]? with
  | none => none
  | some bv =>
    some
      { index := i
        name := jsOr (jsOrOpt (((texs.getD []).find? (fun t => t.source == i)).bind
          Texture.name) im.name) (textureDefaultName i)
        data := sliceJs bin bv.byteOffset (bv.byteOffset + bv.byteLength)
        mimeType := im.mimeType
        bufferViewIndex := im.bufferView }

/-- The extraction loop over `images`, in ascending index order; `probe`
models whether the platform image decode of the sliced bytes succeeds (the
dimension probe of lines 86–93). -/
def extractLoop (bvs : List BufferView) (texs : Option (List Texture))
    (bin : List Nat) (probe : List Nat → Bool) :
    List Image → Nat → Except ExtractErr (List TexInfo)
  | [], _ => Except.ok []
  | im :: rest, i =>
    match texInfoFor bvs texs bin i im with
    | none => Except.error .typeErr
    | some ti =>
      if probe ti.data then
        match extractLoop bvs texs bin probe rest (i + 1) with
        | Except.ok tl => Except.ok (ti :: tl)
        | Except.error e => Except.error e
      else Except.error .decodeErr

/-- The extractor `extractTextures` (lines 55–84): tolerates an absent `images` or
`bufferViews` by returning the empty list, otherwise walks the images. -/
def extractTextures (doc : Doc) (bin : List Nat) (probe : List Nat → Bool) :
    Except ExtractErr (List TexInfo) :=
  match doc.images, doc.bufferViews with
  | some ims, some bvs => extractLoop bvs doc.textures bin probe ims 0
  | _, _ => Except.ok []

/-! ## Container rebuilder (`rebuildGlb`) -/

/-- The rebuilder's failure modes, each a JS `TypeError` from touching a
field of `undefined` (`images.forEach`, `bufferViews.length`,
`buffers[0].byteLength`), plus the never-taken `JSON.parse` failure of the
deep clone. -/
inductive RebuildErr where
  | cloneErr
  | imagesMissing
  | bufferViewsMissing
  | buffersMissing
  deriving DecidableEq, Repr

/-- The `bufferViewToImageIndex` map (lines 145–148): `forEach` inserts
`img.bufferView ↦ index`, a later image overwriting an earlier one with the
same `bufferView`, so a lookup returns the LAST owning image index.
`i0` is the index of the first image in the remaining list. -/
def bvToImgFrom : List Image → Nat → Nat → Option Nat
  | [], _, _ => none
  | im :: rest, i0, b =>
    match bvToImgFrom rest (i0 + 1) b with
    | some r => some r
    | none => if im.bufferView == b then some i0 else none

/-- Lookup in the `bufferViewToImageIndex` map. -/
def bvToImg (ims : List Image) (b : Nat) : Option Nat := bvToImgFrom ims 0 b

/-- New payload for bufferView number `i` (lines 151–162): the replacement
data when the owning image index is in the replacement map, otherwise the
clamped slice of the original raw block at the view's declared range. -/
def bvPayload (ims : List Image) (repl : List (Nat × List Nat)) (bin : List Nat)
    (i : Nat) (bv : BufferView) : List Nat :=
  match bvToImg ims i with
  | some ii =>
    match List.lookup ii repl with
    | some d => d
    | none => sliceJs bin bv.byteOffset (bv.byteOffset + bv.byteLength)
  | none => sliceJs bin bv.byteOffset (bv.byteOffset + bv.byteLength)

/-- New payloads of all bufferViews from number `i0` on, in index order. -/
def bvPayloads (ims : List Image) (repl : List (Nat × List Nat)) (bin : List Nat) :
    List BufferView → Nat → List (List Nat)
  | [], _ => []
  | bv :: rest, i0 => bvPayload ims repl bin i0 bv :: bvPayloads ims repl bin rest (i0 + 1)

/-- The rewritten bufferViews (lines 167–173): sequential `byteOffset`
starting at `off`, `byteLength` the new payload's length. -/
def newViews : List (List Nat) → Nat → List BufferView
  | [], _ => []
  | d :: ds, off => { byteOffset := off, byteLength := d.length } :: newViews ds (off + d.length)

/-- Everything `rebuildGlb` computes before serialization (lines 141–182):
deep-clone the document via a JSON round trip, require `images` and
`bufferViews`, compute the new payloads, rewrite the views and
`buffers[0].byteLength` (requiring a first buffer), and concatenate the new
raw block. -/
def rebuildParts (doc : Doc) (bin : List Nat) (repl : List (Nat × List Nat)) :
    Except RebuildErr (Doc × List Nat) :=
  match parseDocBytes (printDoc doc) with
  | none => Except.error RebuildErr.cloneErr
  | some cloned =>
    match cloned.images with
    | none => Except.error RebuildErr.imagesMissing
    | some ims =>
      match cloned.bufferViews with
      | none => Except.error RebuildErr.bufferViewsMissing
      | some bvs =>
        let datas := bvPayloads ims repl bin bvs 0
        match cloned.buffers with
        | some (_ :: bt) =>
          Except.ok
            ({ images := some ims, bufferViews := some (newViews datas 0),
               buffers := some ({ byteLength := (datas.map List.length).sum } :: bt),
               textures := cloned.textures }, datas.flatten)
        | _ => Except.error RebuildErr.buffersMissing

/-- JS string `.length` (UTF-16 code units) of the text whose UTF-8 bytes
are given: non-continuation bytes count 1, except 4-byte sequence leaders
(astral characters, surrogate pairs) which count 2. -/
def jsCodeUnits (b : Nat) : Nat :=
  if 128 ≤ b ∧ b < 192 then 0 else if 240 ≤ b then 2 else 1

/-- JS `.length` of the decoded string, from its UTF-8 bytes. -/
def jsLen (s : List Nat) : Nat := (s.map jsCodeUnits).sum

/-- Lines 185–188: pad the serialized JSON with spaces to the next multiple
of 4 — of the JS STRING length (UTF-16 code units), then UTF-8 encode. -/
def padTo4Spaces (js : List Nat) : List Nat :=
  js ++ List.replicate ((4 - jsLen js % 4) % 4) 32

/-- Lines 191–193: pad the raw block with zero bytes to the next multiple of
4 of its byte length. -/
def padTo4Zeros (b : List Nat) : List Nat :=
  b ++ List.replicate ((4 - b.length % 4) % 4) 0

/-- Lines 196–219: the output container — header, JSON chunk, BIN chunk. -/
def glbContainer (jsonBytes binBytes : List Nat) : List Nat :=
  let total := 12 + (8 + jsonBytes.length) + (8 + binBytes.length)
  u32le GLB_MAGIC ++ u32le 2 ++ u32le total ++
    u32le jsonBytes.length ++ u32le JSON_CHUNK_TYPE ++ jsonBytes ++
    u32le binBytes.length ++ u32le BIN_CHUNK_TYPE ++ binBytes

/-- The rebuilder `rebuildGlb` (lines 136–220). -/
def rebuildGlb (doc : Doc) (bin : List Nat) (repl : List (Nat × List Nat)) :
    Except RebuildErr (List Nat) :=
  match rebuildParts doc bin repl with
  | Except.error e => Except.error e
  | Except.ok (nd, nb) =>
    Except.ok (glbContainer (padTo4Spaces (printDoc nd)) (padTo4Zeros nb))

/-- The rebuilder together with the caller's document after the call: every
mutation in the source targets the fresh deep clone made on line 141
(`JSON.parse(JSON.stringify(originalJson))`), never `originalJson`, so the
state-passing rendering returns the caller's document unchanged. -/
def rebuildGlbCaller (doc : Doc) (bin : List Nat) (repl : List (Nat × List Nat)) :
    Doc × Except RebuildErr (List Nat) :=
  (doc, rebuildGlb doc bin repl)

/-! ## Concrete sample inputs used by the witness theorems -/

/-- A one-byte MIME type string (ASCII "p"), enough for the byte-level model. -/
def sampleMime : List Nat := [112]

/-- ASCII bytes of "Hair". -/
def hairName : List Nat := [72, 97, 105, 114]

/-- ASCII bytes of "image/png". -/
def pngMime : List Nat := [105, 109, 97, 103, 101, 47, 112, 110, 103]

/-- The image list shared by several samples: one image over bufferView 0. -/
def imsW : List Image := [{ bufferView := 0, mimeType := sampleMime, name := none }]

/-- A well-formed sample document: one image, one bufferView, one buffer. -/
def docW : Doc :=
  { images := some imsW,
    bufferViews := some [{ byteOffset := 0, byteLength := 4 }],
    buffers := some [{ byteLength := 4 }],
    textures := none }

/-- Sample for name resolution: a textures[] entry naming image 0 "Hair". -/
def docC8 : Doc :=
  { images := some imsW,
    bufferViews := some [{ byteOffset := 0, byteLength := 1 }],
    buffers := some [{ byteLength := 1 }],
    textures := some [{ source := 0, name := some hairName }] }

/-- The handle the extractor returns on `docC8` with raw block `[7]`. -/
def tiC8 : TexInfo :=
  { index := 0, name := hairName, data := [7], mimeType := sampleMime, bufferViewIndex := 0 }

/-- Sample with an over-long declared range: bufferView 0 claims 100 bytes. -/
def docC7 : Doc :=
  { images := some imsW,
    bufferViews := some [{ byteOffset := 0, byteLength := 100 }],
    buffers := some [{ byteLength := 1 }],
    textures := none }

/-- Sample with two images sharing bufferView 0 (the forEach map keeps the
last one). -/
def docC3 : Doc :=
  { images := some [{ bufferView := 0, mimeType := sampleMime, name := none },
                    { bufferView := 0, mimeType := sampleMime, name := none }],
    bufferViews := some [{ byteOffset := 0, byteLength := 1 }],
    buffers := some [{ byteLength := 1 }],
    textures := none }

/-- Sample with two images over two distinct bufferViews. -/
def docC3W : Doc :=
  { images := some [{ bufferView := 0, mimeType := sampleMime, name := none },
                    { bufferView := 1, mimeType := sampleMime, name := none }],
    bufferViews := some [{ byteOffset := 0, byteLength := 1 },
                         { byteOffset := 1, byteLength := 2 }],
    buffers := some [{ byteLength := 3 }],
    textures := none }

/-- Sample whose serialized JSON contains a non-ASCII character: the image
name is the two UTF-8 bytes of U+00E9 (one UTF-16 code unit). -/
def docC4 : Doc :=
  { images := some [{ bufferView := 0, mimeType := pngMime, name := some [195, 169] }],
    bufferViews := some [{ byteOffset := 0, byteLength := 1 }],
    buffers := some [{ byteLength := 1 }],
    textures := none }

/-- The document with no members at all; its serialization is "\x7b\x7d". -/
def emptyDoc : Doc :=
  { images := none, bufferViews := none, buffers := none, textures := none }

/-- Sample with an extra bufferView (index 1) owned by no image. -/
def docC9 : Doc :=
  { images := some imsW,
    bufferViews := some [{ byteOffset := 0, byteLength := 1 },
                         { byteOffset := 1, byteLength := 2 }],
    buffers := some [{ byteLength := 3 }],
    textures := none }

/-- The container rebuildGlb emits for `docW` with raw block [1,2,3,4] and no
replacements. -/
def outW : List Nat :=
  glbContainer (padTo4Spaces (printDoc docW)) (padTo4Zeros [1, 2, 3, 4])

theorem natDigitsRev_eq_digits : ∀ fuel n : Nat, n ≤ fuel → natDigitsRev fuel n = Nat.digits 10 n
  | fuel, 0, _ => by cases fuel <;> simp [natDigitsRev]
  | 0, n + 1, h => by omega
  | fuel + 1, n + 1, h => by
    rw [natDigitsRev, Nat.digits_def' (by norm_num : (1 : Nat) < 10) (Nat.succ_pos n)]
    have hle : (n + 1) / 10 ≤ fuel := by
      have := Nat.div_le_self (n + 1) 10
      have h2 : (n + 1) / 10 < n + 1 := Nat.div_lt_self (Nat.succ_pos n) (by norm_num)
      omega
    rw [natDigitsRev_eq_digits fuel ((n + 1) / 10) hle]

theorem printNat_eq (n : Nat) :
    printNat n = if n = 0 then [48] else ((Nat.digits 10 n).reverse.map (· + 48)) := by
  rw [printNat, natDigitsRev_eq_digits n n le_rfl]

theorem printNat_all_digits (n : Nat) : ∀ b ∈ printNat n, isDigitB b = true := by
  rw [printNat_eq]
  split
  · intro b hb
    simp at hb
    subst hb
    rfl
  · intro b hb
    simp at hb
    obtain ⟨d, hd, rfl⟩ := hb
    have : d < 10 := Nat.digits_lt_base (by norm_num) hd
    simp [isDigitB]
    omega

theorem printNat_ne_nil (n : Nat) : printNat n ≠ [] := by
  rw [printNat_eq]
  split
  · simp
  · simp [Nat.digits_ne_nil_iff_ne_zero, *]

theorem foldr_ofDigits (L : List Nat) :
    L.foldr (fun d a => 10 * a + d) 0 = Nat.ofDigits 10 L := by
  induction L with
  | nil => simp [Nat.ofDigits_nil]
  | cons d t ih => simp [Nat.ofDigits_cons, ih]; omega

theorem takeWhile_append_not (p : Nat → Bool) (xs ys : List Nat)
    (hx : ∀ b ∈ xs, p b = true) (hy : ∀ b, ys.head? = some b → p b = false) :
    (xs ++ ys).takeWhile p = xs ∧ (xs ++ ys).dropWhile p = ys := by
  induction xs with
  | nil =>
    cases ys with
    | nil => simp
    | cons y t =>
      have := hy y rfl
      simp [List.takeWhile, List.dropWhile, this]
  | cons x t ih =>
    have hx0 := hx x (by simp)
    have ih' := ih (fun b hb => hx b (by simp [hb]))
    simp [List.takeWhile, List.dropWhile, hx0, ih'.1, ih'.2]

/-! ## Round trip of the string printer -/

theorem fromHexDigit_hexDigit (x : Nat) (h : x < 16) : fromHexDigit (hexDigit x) = some x := by
  by_cases h10 : x < 10
  · rw [hexDigit, if_pos h10, fromHexDigit, if_pos (by omega)]
    congr 1
    omega
  · rw [hexDigit, if_neg h10, fromHexDigit, if_neg (by omega), if_pos (by omega)]
    congr 1
    omega

theorem pStr_print : ∀ (s rest : List Nat),
    pStr ((s.map escapeByte).flatten ++ 34 :: rest) = some (s, rest) := by
  intro s
  induction s with
  | nil =>
    intro rest
    rw [List.map_nil, List.flatten_nil, List.nil_append, pStr.eq_def]
    simp
  | cons b t ih =>
    intro rest
    simp only [List.map_cons, List.flatten_cons, List.append_assoc]
    by_cases h34 : b = 34
    · subst h34
      rw [escapeByte]
      simp only [if_pos rfl, List.cons_append, List.nil_append]
      rw [pStr.eq_def]
      simp [ih]
    · by_cases h92 : b = 92
      · subst h92
        rw [escapeByte]
        simp only [if_neg (by omega : ¬ (92 : Nat) = 34), if_pos rfl, List.cons_append,
          List.nil_append]
        rw [pStr.eq_def]
        simp [ih]
      · by_cases hlt : b < 32
        · by_cases h8 : b = 8
          · subst h8
            rw [escapeByte]
            norm_num
            rw [pStr.eq_def]
            simp [ih]
          · by_cases h9 : b = 9
            · subst h9
              rw [escapeByte]
              norm_num
              rw [pStr.eq_def]
              simp [ih]
            · by_cases h10 : b = 10
              · subst h10
                rw [escapeByte]
                norm_num
                rw [pStr.eq_def]
                simp [ih]
              · by_cases h12 : b = 12
                · subst h12
                  rw [escapeByte]
                  norm_num
                  rw [pStr.eq_def]
                  simp [ih]
                · by_cases h13 : b = 13
                  · subst h13
                    rw [escapeByte]
                    norm_num
                    rw [pStr.eq_def]
                    simp [ih]
                  · have hdiv : b / 16 < 16 := by omega
                    have hmod : b % 16 < 16 := by omega
                    rw [escapeByte, if_neg h34, if_neg h92, if_pos hlt, if_neg h8, if_neg h9,
                      if_neg h10, if_neg h12, if_neg h13]
                    simp only [List.cons_append, List.nil_append]
                    rw [pStr.eq_def]
                    have e48 : fromHexDigit 48 = some 0 := by norm_num [fromHexDigit]
                    simp [e48, fromHexDigit_hexDigit _ hdiv, fromHexDigit_hexDigit _ hmod, ih]
                    omega
        · rw [escapeByte, if_neg h34, if_neg h92, if_neg hlt]
          simp only [List.cons_append, List.nil_append]
          rw [pStr.eq_def]
          simp [h34, h92, hlt, ih]

theorem printElems_one {α : Type} (pr : α → List Nat) (a : α) : printElems pr [a] = pr a := rfl

theorem printElems_cons₂ {α : Type} (pr : α → List Nat) (a b : α) (t : List α) :
    printElems pr (a :: b :: t) = pr a ++ 44 :: printElems pr (b :: t) := rfl

theorem printElems_length_ge {α : Type} (pr : α → List Nat) (hne : ∀ a, pr a ≠ []) :
    ∀ l : List α, l.length ≤ (printElems pr l).length := by
  intro l
  induction l with
  | nil => simp [printElems]
  | cons a t ih =>
    have hlen : 1 ≤ (pr a).length := by
      cases h : pr a with
      | nil => exact absurd h (hne a)
      | cons x xs => simp
    cases t with
    | nil =>
      rw [printElems_one]
      simpa using hlen
    | cons b t2 =>
      rw [printElems_cons₂]
      simp only [List.length_append, List.length_cons] at ih ⊢
      omega

theorem joinComma_nil : joinComma [] = [] := rfl

theorem joinComma_one (m : List Nat) : joinComma [m] = m := rfl

theorem joinComma_cons₂ (m m2 : List Nat) (ms : List (List Nat)) :
    joinComma (m :: m2 :: ms) = m ++ 44 :: joinComma (m2 :: ms) := rfl

/-! ## Round trip of the generic parser over the printer: number and string -/

theorem skipWs_cons (b : Nat) (t : List Nat) (hb : isJsonWs b = false) :
    skipWs (b :: t) = b :: t := by
  simp [skipWs, List.dropWhile_cons, hb]

theorem digitsVal_printNat (n : Nat) : digitsVal (printNat n) = n := by
  rw [digitsVal, printNat_eq]
  split
  · simp [*]
  · rw [List.foldl_map, List.foldl_reverse]
    have h : ∀ (l : List Nat) (a : Nat),
        l.foldr (fun x y => 10 * y + (x + 48 - 48)) a = l.foldr (fun d a => 10 * a + d) a := by
      intro l a
      induction l with
      | nil => rfl
      | cons c cs ihc => simp [ihc]
    rw [h, foldr_ofDigits, Nat.ofDigits_digits]

theorem printNat_cons (n : Nat) :
    ∃ b t, printNat n = b :: t ∧ isDigitB b = true ∧ (n ≠ 0 → b ≠ 48) := by
  by_cases h0 : n = 0
  · subst h0
    exact ⟨48, [], rfl, rfl, fun h => absurd rfl h⟩
  · have hd : Nat.digits 10 n ≠ [] := Nat.digits_ne_nil_iff_ne_zero.mpr h0
    have hdl : (Nat.digits 10 n).getLast? = some ((Nat.digits 10 n).getLast hd) :=
      List.getLast?_eq_getLast _ hd
    have hdl_ne : (Nat.digits 10 n).getLast hd ≠ 0 := Nat.getLast_digit_ne_zero 10 h0
    have hhead : (printNat n).head? = some ((Nat.digits 10 n).getLast hd + 48) := by
      rw [printNat_eq, if_neg h0, List.head?_map, List.head?_reverse, hdl]
      rfl
    cases hpn : printNat n with
    | nil => rw [hpn] at hhead; cases hhead
    | cons b t =>
      rw [hpn] at hhead
      have hb : b = (Nat.digits 10 n).getLast hd + 48 := by
        injection hhead with h
      refine ⟨b, t, rfl, ?_, fun _ => by omega⟩
      exact printNat_all_digits n b (by rw [hpn]; exact List.mem_cons_self b t)

theorem pIntPart_printNat (n : Nat) (rest : List Nat)
    (hrest : ∀ b, rest.head? = some b → isDigitB b = false) :
    pIntPart (printNat n ++ rest) = some (printNat n, rest) := by
  by_cases h0 : n = 0
  · subst h0
    rw [show printNat 0 = [48] from rfl]
    rw [show ([48] : List Nat) ++ rest = 48 :: rest from rfl, pIntPart]
    rw [if_pos rfl]
  · obtain ⟨b, t, hpn, hdig, hne48⟩ := printNat_cons n
    have htw := takeWhile_append_not isDigitB t rest
      (fun x hx => printNat_all_digits n x (by rw [hpn]; exact List.mem_cons_of_mem b hx)) hrest
    rw [hpn]
    simp only [List.cons_append]
    rw [pIntPart]
    rw [if_neg (hne48 h0), if_pos hdig, htw.1, htw.2]

theorem pJNum_printNat (n : Nat) (rest : List Nat)
    (hrest : ∀ b, rest.head? = some b → isDigitB b = false)
    (h46 : rest.head? ≠ some 46) (h101 : rest.head? ≠ some 101) (h69 : rest.head? ≠ some 69) :
    pJNum (printNat n ++ rest) = some (jnumOfNat n, rest) := by
  obtain ⟨b, t, hpn, hdig, _⟩ := printNat_cons n
  have hb : 48 ≤ b ∧ b ≤ 57 := by simpa [isDigitB] using hdig
  have h45 : ¬ (printNat n ++ rest).head? = some 45 := by
    rw [hpn]
    simp only [List.cons_append, List.head?_cons]
    intro h
    injection h with h
    omega
  have h4669 : ¬ (rest.head? = some 101 ∨ rest.head? = some 69) := by
    intro h
    rcases h with h | h
    · exact h101 h
    · exact h69 h
  rw [pJNum, if_neg h45, pJNumBody, pIntPart_printNat n rest hrest]
  dsimp only []
  rw [pFracPart, if_neg h46]
  dsimp only []
  rw [pExpPart, if_neg h4669]
  rfl

theorem pJNum_print_comma (n : Nat) (X : List Nat) :
    pJNum (printNat n ++ 44 :: X) = some (jnumOfNat n, 44 :: X) := by
  refine pJNum_printNat n (44 :: X) ?_ (by simp) (by simp) (by simp)
  intro b hb
  injection hb with hb
  subst hb
  rfl

theorem pJNum_print_brace (n : Nat) (X : List Nat) :
    pJNum (printNat n ++ 125 :: X) = some (jnumOfNat n, 125 :: X) := by
  refine pJNum_printNat n (125 :: X) ?_ (by simp) (by simp) (by simp)
  intro b hb
  injection hb with hb
  subst hb
  rfl

theorem pJ_num_comma (n : Nat) (f : Nat) (X : List Nat) :
    pJ (f + 1) PMode.val (printNat n ++ 44 :: X) = some (jnumOfNat n, 44 :: X) := by
  obtain ⟨b, t, hpn, hdig, _⟩ := printNat_cons n
  have hb : 48 ≤ b ∧ b ≤ 57 := by simpa [isDigitB] using hdig
  rw [hpn]
  simp only [List.cons_append]
  rw [pJ.eq_def]
  dsimp only []
  rw [if_neg (by omega), if_neg (by omega), if_neg (by omega), if_neg (by omega),
    if_neg (by omega), if_neg (by omega)]
  rw [← List.cons_append, ← hpn]
  exact pJNum_print_comma n X

theorem pJ_num_brace (n : Nat) (f : Nat) (X : List Nat) :
    pJ (f + 1) PMode.val (printNat n ++ 125 :: X) = some (jnumOfNat n, 125 :: X) := by
  obtain ⟨b, t, hpn, hdig, _⟩ := printNat_cons n
  have hb : 48 ≤ b ∧ b ≤ 57 := by simpa [isDigitB] using hdig
  rw [hpn]
  simp only [List.cons_append]
  rw [pJ.eq_def]
  dsimp only []
  rw [if_neg (by omega), if_neg (by omega), if_neg (by omega), if_neg (by omega),
    if_neg (by omega), if_neg (by omega)]
  rw [← List.cons_append, ← hpn]
  exact pJNum_print_brace n X

theorem pJ_str (s : List Nat) (f : Nat) (X : List Nat) :
    pJ (f + 1) PMode.val (printStr s ++ X) = some (JVal.jstr s, X) := by
  rw [printStr]
  simp only [List.cons_append, List.append_assoc]
  rw [pJ.eq_def]
  dsimp only []
  rw [if_neg (by norm_num), if_neg (by norm_num), if_neg (by norm_num), if_pos rfl]
  rw [pStr_print]
  rfl

/-! ## Round trip: object members -/

theorem pStr_key (nm : List Nat) (hclean : (nm.map escapeByte).flatten = nm) (rest : List Nat) :
    pStr (nm ++ 34 :: rest) = some (nm, rest) := by
  have h := pStr_print nm rest
  rwa [hclean] at h

theorem pJ_member_last (nm : List Nat) (hclean : (nm.map escapeByte).flatten = nm)
    (pv : List Nat) (b0 : Nat) (t0 : List Nat) (hpv : pv = b0 :: t0) (hb0 : isJsonWs b0 = false)
    (jv : JVal) (c : Nat) (rest : List Nat)
    (hval : ∀ g : Nat, pJ (g + c) PMode.val (pv ++ 125 :: rest) = some (jv, 125 :: rest))
    (f : Nat) (acc : List (List Nat × JVal)) :
    pJ (f + c + 1) (PMode.members acc) (34 :: (nm ++ 34 :: 58 :: (pv ++ 125 :: rest))) =
      some (JVal.jobj (acc ++ [(nm, jv)]), rest) := by
  rw [pJ.eq_def]
  dsimp only []
  rw [skipWs_cons 34 _ (by norm_num [isJsonWs])]
  dsimp only []
  rw [pStr_key nm hclean]
  dsimp only []
  rw [skipWs_cons 58 _ (by norm_num [isJsonWs])]
  dsimp only []
  have hskip : skipWs (pv ++ 125 :: rest) = pv ++ 125 :: rest := by
    rw [hpv]
    simp only [List.cons_append]
    exact skipWs_cons b0 _ hb0
  rw [hskip, hval f]
  dsimp only []
  rw [skipWs_cons 125 _ (by norm_num [isJsonWs])]

theorem pJ_member_cons (nm : List Nat) (hclean : (nm.map escapeByte).flatten = nm)
    (pv : List Nat) (b0 : Nat) (t0 : List Nat) (hpv : pv = b0 :: t0) (hb0 : isJsonWs b0 = false)
    (jv : JVal) (c : Nat) (s2 : List Nat)
    (hval : ∀ g : Nat, pJ (g + c) PMode.val (pv ++ 44 :: s2) = some (jv, 44 :: s2))
    (f : Nat) (acc : List (List Nat × JVal)) :
    pJ (f + c + 1) (PMode.members acc) (34 :: (nm ++ 34 :: 58 :: (pv ++ 44 :: s2))) =
      pJ (f + c) (PMode.members (acc ++ [(nm, jv)])) s2 := by
  rw [pJ.eq_def]
  dsimp only []
  rw [skipWs_cons 34 _ (by norm_num [isJsonWs])]
  dsimp only []
  rw [pStr_key nm hclean]
  dsimp only []
  rw [skipWs_cons 58 _ (by norm_num [isJsonWs])]
  dsimp only []
  have hskip : skipWs (pv ++ 44 :: s2) = pv ++ 44 :: s2 := by
    rw [hpv]
    simp only [List.cons_append]
    exact skipWs_cons b0 _ hb0
  rw [hskip, hval f]
  dsimp only []
  rw [skipWs_cons 44 _ (by norm_num [isJsonWs])]

/-! ## Round trip: the four element objects -/

theorem kBufferView_shape (X : List Nat) :
    kBufferView ++ X = 34 :: (nmBufferView ++ 34 :: 58 :: X) := rfl

theorem kMimeType_shape (X : List Nat) :
    kMimeType ++ X = 34 :: (nmMimeType ++ 34 :: 58 :: X) := rfl

theorem kName_shape (X : List Nat) :
    kName ++ X = 34 :: (nmName ++ 34 :: 58 :: X) := rfl

theorem kByteOffset_shape (X : List Nat) :
    kByteOffset ++ X = 34 :: (nmByteOffset ++ 34 :: 58 :: X) := rfl

theorem kByteLength_shape (X : List Nat) :
    kByteLength ++ X = 34 :: (nmByteLength ++ 34 :: 58 :: X) := rfl

theorem kSource_shape (X : List Nat) :
    kSource ++ X = 34 :: (nmSource ++ 34 :: 58 :: X) := rfl

theorem kImages_shape (X : List Nat) :
    kImages ++ X = 34 :: (nmImages ++ 34 :: 58 :: X) := rfl

theorem kBufferViews_shape (X : List Nat) :
    kBufferViews ++ X = 34 :: (nmBufferViews ++ 34 :: 58 :: X) := rfl

theorem kBuffers_shape (X : List Nat) :
    kBuffers ++ X = 34 :: (nmBuffers ++ 34 :: 58 :: X) := rfl

theorem kTextures_shape (X : List Nat) :
    kTextures ++ X = 34 :: (nmTextures ++ 34 :: 58 :: X) := rfl

theorem isDigitB_not_ws (b : Nat) (h : isDigitB b = true) : isJsonWs b = false := by
  simp only [isDigitB, Bool.and_eq_true, decide_eq_true_eq] at h
  simp only [isJsonWs, Bool.or_eq_false_iff, decide_eq_false_iff_not]
  omega

theorem pJ_printImage (im : Image) (f : Nat) (rest : List Nat) :
    pJ (f + 5) PMode.val (printImage im ++ rest) = some (jvalOfImage im, rest) := by
  obtain ⟨bvi, m, nm⟩ := im
  obtain ⟨b0, t0, hpn0, hdig0, _⟩ := printNat_cons bvi
  cases nm with
  | none =>
    rw [printImage]
    dsimp only []
    simp only [List.cons_append, List.append_assoc, List.nil_append, List.singleton_append]
    rw [show f + 5 = (f + 4) + 1 from rfl, pJ.eq_def]
    dsimp only []
    rw [if_neg (by norm_num), if_neg (by norm_num), if_neg (by norm_num),
      if_neg (by norm_num), if_neg (by norm_num), if_pos rfl]
    rw [kBufferView_shape, skipWs_cons 34 _ (by norm_num [isJsonWs])]
    dsimp only []
    rw [show f + 4 = (f + 2) + 1 + 1 from rfl,
      pJ_member_cons nmBufferView (by decide) (printNat bvi) b0 t0 hpn0
        (isDigitB_not_ws b0 hdig0) (jnumOfNat bvi) 1 _
        (fun g => pJ_num_comma bvi g _) (f + 2) []]
    rw [kMimeType_shape]
    rw [show f + 2 + 1 = (f + 1) + 1 + 1 from rfl,
      pJ_member_last nmMimeType (by decide) (printStr m) 34 _ rfl (by norm_num [isJsonWs])
        (JVal.jstr m) 1 rest (fun g => pJ_str m g _) (f + 1) _]
    rw [jvalOfImage]
    dsimp only []
    simp
  | some nmv =>
    rw [printImage]
    dsimp only []
    simp only [List.cons_append, List.append_assoc, List.nil_append, List.singleton_append]
    rw [show f + 5 = (f + 4) + 1 from rfl, pJ.eq_def]
    dsimp only []
    rw [if_neg (by norm_num), if_neg (by norm_num), if_neg (by norm_num),
      if_neg (by norm_num), if_neg (by norm_num), if_pos rfl]
    rw [kBufferView_shape, skipWs_cons 34 _ (by norm_num [isJsonWs])]
    dsimp only []
    rw [show f + 4 = (f + 2) + 1 + 1 from rfl,
      pJ_member_cons nmBufferView (by decide) (printNat bvi) b0 t0 hpn0
        (isDigitB_not_ws b0 hdig0) (jnumOfNat bvi) 1 _
        (fun g => pJ_num_comma bvi g _) (f + 2) []]
    rw [kMimeType_shape]
    rw [show f + 2 + 1 = f + 1 + 1 + 1 from rfl,
      pJ_member_cons nmMimeType (by decide) (printStr m) 34 _ rfl (by norm_num [isJsonWs])
        (JVal.jstr m) 1 _ (fun g => pJ_str m g _) (f + 1) _]
    rw [kName_shape]
    rw [pJ_member_last nmName (by decide) (printStr nmv) 34 _ rfl (by norm_num [isJsonWs])
        (JVal.jstr nmv) 1 rest (fun g => pJ_str nmv g _) f _]
    rw [jvalOfImage]
    dsimp only []
    simp

theorem pJ_printBufferView (bv : BufferView) (f : Nat) (rest : List Nat) :
    pJ (f + 5) PMode.val (printBufferView bv ++ rest) = some (jvalOfBufferView bv, rest) := by
  obtain ⟨o, l⟩ := bv
  obtain ⟨b0, t0, hpn0, hdig0, _⟩ := printNat_cons o
  obtain ⟨b1, t1, hpn1, hdig1, _⟩ := printNat_cons l
  rw [printBufferView]
  dsimp only []
  simp only [List.cons_append, List.append_assoc, List.nil_append, List.singleton_append]
  rw [show f + 5 = (f + 4) + 1 from rfl, pJ.eq_def]
  dsimp only []
  rw [if_neg (by norm_num), if_neg (by norm_num), if_neg (by norm_num),
    if_neg (by norm_num), if_neg (by norm_num), if_pos rfl]
  rw [kByteOffset_shape, skipWs_cons 34 _ (by norm_num [isJsonWs])]
  dsimp only []
  rw [show f + 4 = (f + 2) + 1 + 1 from rfl,
    pJ_member_cons nmByteOffset (by decide) (printNat o) b0 t0 hpn0
      (isDigitB_not_ws b0 hdig0) (jnumOfNat o) 1 _
      (fun g => pJ_num_comma o g _) (f + 2) []]
  rw [kByteLength_shape]
  rw [show f + 2 + 1 = (f + 1) + 1 + 1 from rfl,
    pJ_member_last nmByteLength (by decide) (printNat l) b1 t1 hpn1
      (isDigitB_not_ws b1 hdig1) (jnumOfNat l) 1 rest
      (fun g => pJ_num_brace l g _) (f + 1) _]
  rw [jvalOfBufferView]
  dsimp only []
  simp

theorem pJ_printBuffer (b : Buffer) (f : Nat) (rest : List Nat) :
    pJ (f + 5) PMode.val (printBuffer b ++ rest) = some (jvalOfBuffer b, rest) := by
  obtain ⟨l⟩ := b
  obtain ⟨b1, t1, hpn1, hdig1, _⟩ := printNat_cons l
  rw [printBuffer]
  dsimp only []
  simp only [List.cons_append, List.append_assoc, List.nil_append, List.singleton_append]
  rw [show f + 5 = (f + 4) + 1 from rfl, pJ.eq_def]
  dsimp only []
  rw [if_neg (by norm_num), if_neg (by norm_num), if_neg (by norm_num),
    if_neg (by norm_num), if_neg (by norm_num), if_pos rfl]
  rw [kByteLength_shape, skipWs_cons 34 _ (by norm_num [isJsonWs])]
  dsimp only []
  rw [show f + 4 = (f + 2) + 1 + 1 from rfl,
    pJ_member_last nmByteLength (by decide) (printNat l) b1 t1 hpn1
      (isDigitB_not_ws b1 hdig1) (jnumOfNat l) 1 rest
      (fun g => pJ_num_brace l g _) (f + 2) []]
  rw [jvalOfBuffer]
  dsimp only []
  simp

theorem pJ_printTexture (t : Texture) (f : Nat) (rest : List Nat) :
    pJ (f + 5) PMode.val (printTexture t ++ rest) = some (jvalOfTexture t, rest) := by
  obtain ⟨n, nm⟩ := t
  obtain ⟨b0, t0, hpn0, hdig0, _⟩ := printNat_cons n
  cases nm with
  | none =>
    rw [printTexture]
    dsimp only []
    simp only [List.cons_append, List.append_assoc, List.nil_append, List.singleton_append]
    rw [show f + 5 = (f + 4) + 1 from rfl, pJ.eq_def]
    dsimp only []
    rw [if_neg (by norm_num), if_neg (by norm_num), if_neg (by norm_num),
      if_neg (by norm_num), if_neg (by norm_num), if_pos rfl]
    rw [kSource_shape, skipWs_cons 34 _ (by norm_num [isJsonWs])]
    dsimp only []
    rw [show f + 4 = (f + 2) + 1 + 1 from rfl,
      pJ_member_last nmSource (by decide) (printNat n) b0 t0 hpn0
        (isDigitB_not_ws b0 hdig0) (jnumOfNat n) 1 rest
        (fun g => pJ_num_brace n g _) (f + 2) []]
    rw [jvalOfTexture]
    dsimp only []
    simp
  | some nmv =>
    rw [printTexture]
    dsimp only []
    simp only [List.cons_append, List.append_assoc, List.nil_append, List.singleton_append]
    rw [show f + 5 = (f + 4) + 1 from rfl, pJ.eq_def]
    dsimp only []
    rw [if_neg (by norm_num), if_neg (by norm_num), if_neg (by norm_num),
      if_neg (by norm_num), if_neg (by norm_num), if_pos rfl]
    rw [kSource_shape, skipWs_cons 34 _ (by norm_num [isJsonWs])]
    dsimp only []
    rw [show f + 4 = (f + 2) + 1 + 1 from rfl,
      pJ_member_cons nmSource (by decide) (printNat n) b0 t0 hpn0
        (isDigitB_not_ws b0 hdig0) (jnumOfNat n) 1 _
        (fun g => pJ_num_comma n g _) (f + 2) []]
    rw [kName_shape]
    rw [show f + 2 + 1 = (f + 1) + 1 + 1 from rfl,
      pJ_member_last nmName (by decide) (printStr nmv) 34 _ rfl (by norm_num [isJsonWs])
        (JVal.jstr nmv) 1 rest (fun g => pJ_str nmv g _) (f + 1) _]
    rw [jvalOfTexture]
    dsimp only []
    simp

/-! ## Round trip: arrays -/

theorem pJ_elems_print {α : Type} (pr : α → List Nat) (jv : α → JVal) (c : Nat)
    (hE : ∀ (a : α) (g : Nat) (rest : List Nat),
      pJ (g + c) PMode.val (pr a ++ rest) = some (jv a, rest))
    (hhead : ∀ a, ∃ u, pr a = 123 :: u) :
    ∀ (l : List α), l ≠ [] → ∀ (f : Nat) (acc : List JVal) (rest : List Nat),
      pJ (f + l.length + c) (PMode.elems acc) (printElems pr l ++ 93 :: rest) =
        some (JVal.jarr (acc ++ l.map jv), rest) := by
  intro l
  induction l with
  | nil => intro h; exact absurd rfl h
  | cons a t ih =>
    intro _ f acc rest
    obtain ⟨u, hu⟩ := hhead a
    cases t with
    | nil =>
      rw [printElems_one]
      simp only [List.length_cons, List.length_nil]
      rw [show f + (0 + 1) + c = (f + c) + 1 from by omega, pJ.eq_def]
      dsimp only []
      have hskip : skipWs (pr a ++ 93 :: rest) = pr a ++ 93 :: rest := by
        rw [hu]
        simp only [List.cons_append]
        exact skipWs_cons 123 _ (by norm_num [isJsonWs])
      rw [hskip, hE a f (93 :: rest)]
      dsimp only []
      rw [skipWs_cons 93 _ (by norm_num [isJsonWs])]
      simp
    | cons b t2 =>
      rw [printElems_cons₂]
      simp only [List.length_cons, List.append_assoc, List.cons_append]
      rw [show f + (t2.length + 1 + 1) + c = (f + (t2.length + 1) + c) + 1 from by omega,
        pJ.eq_def]
      dsimp only []
      have hskip : skipWs (pr a ++ (44 :: (printElems pr (b :: t2) ++ 93 :: rest))) =
          pr a ++ (44 :: (printElems pr (b :: t2) ++ 93 :: rest)) := by
        rw [hu]
        simp only [List.cons_append]
        exact skipWs_cons 123 _ (by norm_num [isJsonWs])
      rw [hskip, hE a (f + (t2.length + 1)) _]
      dsimp only []
      rw [skipWs_cons 44 _ (by norm_num [isJsonWs])]
      dsimp only []
      have ihx := ih (by simp) f (acc ++ [jv a]) rest
      simp only [List.length_cons] at ihx
      rw [ihx]
      simp

theorem pJ_printList {α : Type} (pr : α → List Nat) (jv : α → JVal) (c : Nat)
    (hE : ∀ (a : α) (g : Nat) (rest : List Nat),
      pJ (g + c) PMode.val (pr a ++ rest) = some (jv a, rest))
    (hhead : ∀ a, ∃ u, pr a = 123 :: u) :
    ∀ (l : List α) (f : Nat) (rest : List Nat),
      pJ (f + l.length + c + 1) PMode.val (printList pr l ++ rest) =
        some (JVal.jarr (l.map jv), rest) := by
  intro l f rest
  cases l with
  | nil =>
    rw [printList, printElems]
    simp only [List.length_nil, List.cons_append, List.nil_append, List.singleton_append]
    rw [show f + 0 + c + 1 = (f + c) + 1 from by omega, pJ.eq_def]
    dsimp only []
    rw [if_neg (by norm_num), if_neg (by norm_num), if_neg (by norm_num),
      if_neg (by norm_num), if_pos rfl]
    rw [skipWs_cons 93 _ (by norm_num [isJsonWs])]
    simp
  | cons a t =>
    rw [printList]
    simp only [List.cons_append, List.append_assoc, List.nil_append, List.singleton_append]
    rw [show f + (a :: t).length + c + 1 = (f + (a :: t).length + c) + 1 from rfl, pJ.eq_def]
    dsimp only []
    rw [if_neg (by norm_num), if_neg (by norm_num), if_neg (by norm_num),
      if_neg (by norm_num), if_pos rfl]
    obtain ⟨u, hu⟩ := hhead a
    obtain ⟨w, hw⟩ : ∃ w, printElems pr (a :: t) ++ 93 :: rest = 123 :: w := by
      cases t with
      | nil =>
        rw [printElems_one, hu]
        exact ⟨u ++ 93 :: rest, by simp⟩
      | cons b t2 =>
        rw [printElems_cons₂, hu]
        exact ⟨u ++ 44 :: printElems pr (b :: t2) ++ 93 :: rest, by simp⟩
    rw [hw, skipWs_cons 123 _ (by norm_num [isJsonWs]), ← hw]
    rw [pJ_elems_print pr jv c hE hhead (a :: t) (by simp) f [] rest, hw]
    simp

/-! ## Round trip: the member chain of the document object -/

theorem pJ_members_print :
    ∀ (pms : List PMember), pms ≠ [] →
    (∀ m ∈ pms, (m.nm.map escapeByte).flatten = m.nm) →
    (∀ m ∈ pms, ∃ b0 t0, m.pv = b0 :: t0 ∧ isJsonWs b0 = false) →
    (∀ m ∈ pms, ∀ (g : Nat) (rest : List Nat),
      pJ (g + m.nd) PMode.val (m.pv ++ rest) = some (m.jv, rest)) →
    ∀ (f : Nat) (acc : List (List Nat × JVal)) (rest : List Nat),
      pJ (f + tnNeed pms) (PMode.members acc) (joinComma (pms.map mbBytes) ++ 125 :: rest) =
        some (JVal.jobj (acc ++ pms.map (fun m => (m.nm, m.jv))), rest) := by
  intro pms
  induction pms with
  | nil => intro h; exact absurd rfl h
  | cons m pt ih =>
    intro _ hclean hheads hvals f acc rest
    obtain ⟨b0, t0, hpv, hb0⟩ := hheads m (List.mem_cons_self m pt)
    have hcl := hclean m (List.mem_cons_self m pt)
    have hv := hvals m (List.mem_cons_self m pt)
    cases pt with
    | nil =>
      simp only [List.map_cons, List.map_nil, joinComma_one, tnNeed]
      simp only [mbBytes, List.cons_append, List.append_assoc]
      rw [show f + (m.nd + 2 + 0) = ((f + 1) + m.nd) + 1 from by omega,
        pJ_member_last m.nm hcl m.pv b0 t0 hpv hb0 m.jv m.nd rest
          (fun g => hv g (125 :: rest)) (f + 1) acc]
    | cons m2 pt2 =>
      simp only [List.map_cons, joinComma_cons₂, tnNeed]
      simp only [mbBytes, List.cons_append, List.append_assoc]
      rw [show f + (m.nd + 2 + (m2.nd + 2 + tnNeed pt2)) =
        ((f + 1 + (m2.nd + 2 + tnNeed pt2)) + m.nd) + 1 from by omega]
      rw [pJ_member_cons m.nm hcl m.pv b0 t0 hpv hb0 m.jv m.nd _
        (fun g => hv g _) (f + 1 + (m2.nd + 2 + tnNeed pt2)) acc]
      rw [show f + 1 + (m2.nd + 2 + tnNeed pt2) + m.nd =
        (f + m.nd + 1) + tnNeed (m2 :: pt2) from by simp [tnNeed]; omega]
      have ihx := ih (by simp) (fun x hx => hclean x (List.mem_cons_of_mem m hx))
        (fun x hx => hheads x (List.mem_cons_of_mem m hx))
        (fun x hx => hvals x (List.mem_cons_of_mem m hx))
        (f + m.nd + 1) (acc ++ [(m.nm, m.jv)]) rest
      simp only [List.map_cons, mbBytes, List.cons_append, List.append_assoc] at ihx
      rw [ihx]
      simp

/-! ## Round trip: the document object -/

theorem pJ_printList_images (l : List Image) (g : Nat) (rest : List Nat) :
    pJ (g + (l.length + 6)) PMode.val (printList printImage l ++ rest) =
      some (JVal.jarr (l.map jvalOfImage), rest) := by
  rw [show g + (l.length + 6) = g + l.length + 5 + 1 from by omega]
  exact pJ_printList printImage jvalOfImage 5 pJ_printImage (fun a => ⟨_, rfl⟩) l g rest

theorem pJ_printList_bufferViews (l : List BufferView) (g : Nat) (rest : List Nat) :
    pJ (g + (l.length + 6)) PMode.val (printList printBufferView l ++ rest) =
      some (JVal.jarr (l.map jvalOfBufferView), rest) := by
  rw [show g + (l.length + 6) = g + l.length + 5 + 1 from by omega]
  exact pJ_printList printBufferView jvalOfBufferView 5 pJ_printBufferView
    (fun a => ⟨_, rfl⟩) l g rest

theorem pJ_printList_buffers (l : List Buffer) (g : Nat) (rest : List Nat) :
    pJ (g + (l.length + 6)) PMode.val (printList printBuffer l ++ rest) =
      some (JVal.jarr (l.map jvalOfBuffer), rest) := by
  rw [show g + (l.length + 6) = g + l.length + 5 + 1 from by omega]
  exact pJ_printList printBuffer jvalOfBuffer 5 pJ_printBuffer (fun a => ⟨_, rfl⟩) l g rest

theorem pJ_printList_textures (l : List Texture) (g : Nat) (rest : List Nat) :
    pJ (g + (l.length + 6)) PMode.val (printList printTexture l ++ rest) =
      some (JVal.jarr (l.map jvalOfTexture), rest) := by
  rw [show g + (l.length + 6) = g + l.length + 5 + 1 from by omega]
  exact pJ_printList printTexture jvalOfTexture 5 pJ_printTexture (fun a => ⟨_, rfl⟩) l g rest

theorem docPMembers_cases (d : Doc) (m : PMember) (hm : m ∈ docPMembers d) :
    (∃ l, d.images = some l ∧
      m = ⟨nmImages, printList printImage l, JVal.jarr (l.map jvalOfImage), l.length + 6⟩) ∨
    (∃ l, d.bufferViews = some l ∧
      m = ⟨nmBufferViews, printList printBufferView l, JVal.jarr (l.map jvalOfBufferView),
        l.length + 6⟩) ∨
    (∃ l, d.buffers = some l ∧
      m = ⟨nmBuffers, printList printBuffer l, JVal.jarr (l.map jvalOfBuffer),
        l.length + 6⟩) ∨
    (∃ l, d.textures = some l ∧
      m = ⟨nmTextures, printList printTexture l, JVal.jarr (l.map jvalOfTexture),
        l.length + 6⟩) := by
  rw [docPMembers] at hm
  rcases List.mem_append.mp hm with h123 | h4
  · rcases List.mem_append.mp h123 with h12 | h3
    · rcases List.mem_append.mp h12 with h1 | h2
      · cases hoi : d.images with
        | none => rw [hoi] at h1; simp at h1
        | some l =>
          rw [hoi] at h1
          simp only [List.mem_singleton] at h1
          exact Or.inl ⟨l, rfl, h1⟩
      · cases hov : d.bufferViews with
        | none => rw [hov] at h2; simp at h2
        | some l =>
          rw [hov] at h2
          simp only [List.mem_singleton] at h2
          exact Or.inr (Or.inl ⟨l, rfl, h2⟩)
    · cases hob : d.buffers with
      | none => rw [hob] at h3; simp at h3
      | some l =>
        rw [hob] at h3
        simp only [List.mem_singleton] at h3
        exact Or.inr (Or.inr (Or.inl ⟨l, rfl, h3⟩))
  · cases hot : d.textures with
    | none => rw [hot] at h4; simp at h4
    | some l =>
      rw [hot] at h4
      simp only [List.mem_singleton] at h4
      exact Or.inr (Or.inr (Or.inr ⟨l, rfl, h4⟩))

theorem docPMembers_clean (d : Doc) :
    ∀ m ∈ docPMembers d, (m.nm.map escapeByte).flatten = m.nm := by
  intro m hm
  rcases docPMembers_cases d m hm with ⟨l, _, rfl⟩ | ⟨l, _, rfl⟩ | ⟨l, _, rfl⟩ | ⟨l, _, rfl⟩ <;>
    · dsimp only []
      decide

theorem docPMembers_head (d : Doc) :
    ∀ m ∈ docPMembers d, ∃ b0 t0, m.pv = b0 :: t0 ∧ isJsonWs b0 = false := by
  intro m hm
  rcases docPMembers_cases d m hm with ⟨l, _, rfl⟩ | ⟨l, _, rfl⟩ | ⟨l, _, rfl⟩ | ⟨l, _, rfl⟩ <;>
    exact ⟨91, _, rfl, by norm_num [isJsonWs]⟩

theorem docPMembers_val (d : Doc) :
    ∀ m ∈ docPMembers d, ∀ (g : Nat) (rest : List Nat),
      pJ (g + m.nd) PMode.val (m.pv ++ rest) = some (m.jv, rest) := by
  intro m hm g rest
  rcases docPMembers_cases d m hm with ⟨l, _, rfl⟩ | ⟨l, _, rfl⟩ | ⟨l, _, rfl⟩ | ⟨l, _, rfl⟩
  · exact pJ_printList_images l g rest
  · exact pJ_printList_bufferViews l g rest
  · exact pJ_printList_buffers l g rest
  · exact pJ_printList_textures l g rest

theorem docMembers_eq (d : Doc) : docMembers d = (docPMembers d).map mbBytes := by
  obtain ⟨oi, ov, ob, ot⟩ := d
  rw [docMembers, docPMembers]
  cases oi <;> cases ov <;> cases ob <;> cases ot <;>
    simp [mbBytes, kImages_shape, kBufferViews_shape, kBuffers_shape, kTextures_shape]

theorem pJ_printDoc (d : Doc) (f : Nat) (rest : List Nat) :
    pJ (f + docNeed d) PMode.val (printDoc d ++ rest) = some (jvalOfDoc d, rest) := by
  rw [printDoc, docNeed, jvalOfDoc, docMembers_eq]
  cases hpms : docPMembers d with
  | nil =>
    simp only [List.map_nil, joinComma_nil, tnNeed, List.nil_append, List.cons_append,
      List.singleton_append]
    rw [show f + (0 + 2) = (f + 1) + 1 from by omega, pJ.eq_def]
    dsimp only []
    rw [if_neg (by norm_num), if_neg (by norm_num), if_neg (by norm_num),
      if_neg (by norm_num), if_neg (by norm_num), if_pos rfl]
    rw [skipWs_cons 125 _ (by norm_num [isJsonWs])]
  | cons m pt =>
    simp only [List.cons_append, List.append_assoc, List.nil_append, List.singleton_append]
    rw [show f + (tnNeed (m :: pt) + 2) = ((f + 1) + tnNeed (m :: pt)) + 1 from by omega,
      pJ.eq_def]
    dsimp only []
    rw [if_neg (by norm_num), if_neg (by norm_num), if_neg (by norm_num),
      if_neg (by norm_num), if_neg (by norm_num), if_pos rfl]
    obtain ⟨w, hw⟩ : ∃ w, joinComma ((m :: pt).map mbBytes) ++ 125 :: rest = 34 :: w := by
      cases pt with
      | nil =>
        simp only [List.map_cons, List.map_nil, joinComma_one, mbBytes, List.cons_append,
          List.append_assoc]
        exact ⟨_, rfl⟩
      | cons m2 pt2 =>
        simp only [List.map_cons, joinComma_cons₂, mbBytes, List.cons_append,
          List.append_assoc]
        exact ⟨_, rfl⟩
    rw [hw, skipWs_cons 34 _ (by norm_num [isJsonWs]), ← hw]
    have hclean := docPMembers_clean d
    have hheads := docPMembers_head d
    have hvals := docPMembers_val d
    rw [hpms] at hclean hheads hvals
    rw [pJ_members_print (m :: pt) (by simp) hclean hheads hvals (f + 1) [] rest, hw]
    simp

theorem tnNeed_le (pms : List PMember)
    (h : ∀ m ∈ pms, m.nd + 1 ≤ (mbBytes m).length) :
    tnNeed pms ≤ (joinComma (pms.map mbBytes)).length + 1 := by
  induction pms with
  | nil => simp [tnNeed]
  | cons m pt ih =>
    have hm := h m (List.mem_cons_self m pt)
    cases pt with
    | nil =>
      simp only [tnNeed, List.map_cons, List.map_nil, joinComma_one]
      omega
    | cons m2 pt2 =>
      have ih2 := ih (fun x hx => h x (List.mem_cons_of_mem _ hx))
      simp only [tnNeed, List.map_cons, joinComma_cons₂, List.length_append,
        List.length_cons] at ih2 ⊢
      omega

theorem docPMembers_bound (d : Doc) : ∀ m ∈ docPMembers d, m.nd + 1 ≤ (mbBytes m).length := by
  intro m hm
  rcases docPMembers_cases d m hm with ⟨l, _, rfl⟩ | ⟨l, _, rfl⟩ | ⟨l, _, rfl⟩ | ⟨l, _, rfl⟩
  · have hel := printElems_length_ge printImage (fun a => by simp [printImage]) l
    simp only [mbBytes, printList, List.length_cons, List.length_append, nmImages]
    simp only [List.length_cons, List.length_nil]
    omega
  · have hel := printElems_length_ge printBufferView (fun a => by simp [printBufferView]) l
    simp only [mbBytes, printList, List.length_cons, List.length_append, nmBufferViews]
    simp only [List.length_cons, List.length_nil]
    omega
  · have hel := printElems_length_ge printBuffer (fun a => by simp [printBuffer]) l
    simp only [mbBytes, printList, List.length_cons, List.length_append, nmBuffers]
    simp only [List.length_cons, List.length_nil]
    omega
  · have hel := printElems_length_ge printTexture (fun a => by simp [printTexture]) l
    simp only [mbBytes, printList, List.length_cons, List.length_append, nmTextures]
    simp only [List.length_cons, List.length_nil]
    omega

theorem docNeed_le (d : Doc) : docNeed d ≤ (printDoc d).length + 1 := by
  rw [docNeed, printDoc, docMembers_eq]
  have h := tnNeed_le (docPMembers d) (docPMembers_bound d)
  simp only [List.length_cons, List.length_append]
  omega

theorem jparse_printDoc_ws (d : Doc) (k : Nat) :
    jparse (printDoc d ++ List.replicate k 32) = some (jvalOfDoc d) := by
  rw [jparse]
  have hskip : skipWs (printDoc d ++ List.replicate k 32) =
      printDoc d ++ List.replicate k 32 := by
    rw [printDoc]
    simp only [List.cons_append]
    exact skipWs_cons 123 _ (by norm_num [isJsonWs])
  rw [hskip]
  obtain ⟨f, hf⟩ : ∃ f, (printDoc d ++ List.replicate k 32).length + 1 = f + docNeed d := by
    have hle := docNeed_le d
    refine ⟨(printDoc d ++ List.replicate k 32).length + 1 - docNeed d, ?_⟩
    simp only [List.length_append]
    omega
  rw [hf, pJ_printDoc]
  have hall : (List.replicate k 32).all isJsonWs = true := by
    rw [List.all_eq_true]
    intro b hb
    rw [List.eq_of_mem_replicate hb]
    decide
  dsimp only []
  rw [if_pos hall]

/-! ## The typed view undoes the denotation -/

theorem traverseOption_map {α β : Type} (f : α → Option β) (g : β → α) (l : List β)
    (h : ∀ b, f (g b) = some b) : traverseOption f (l.map g) = some l := by
  induction l with
  | nil => rfl
  | cons a t ih => simp [traverseOption, h, ih]

theorem toImage_jvalOfImage (im : Image) : toImage (jvalOfImage im) = some im := by
  obtain ⟨bvi, m, nm⟩ := im
  have b1 : (nmMimeType == nmBufferView) = false := by decide
  have b2 : (nmName == nmBufferView) = false := by decide
  have b3 : (nmBufferView == nmMimeType) = false := by decide
  have b4 : (nmName == nmMimeType) = false := by decide
  have b5 : (nmBufferView == nmName) = false := by decide
  have b6 : (nmMimeType == nmName) = false := by decide
  cases nm with
  | none =>
    simp [jvalOfImage, toImage, jLookup, asNat, asStr, jnumOfNat, digitsVal_printNat,
      b1, b2, b3, b4, b5, b6]
  | some nmv =>
    simp [jvalOfImage, toImage, jLookup, asNat, asStr, jnumOfNat, digitsVal_printNat,
      b1, b2, b3, b4, b5, b6]

theorem toBufferView_jvalOfBufferView (bv : BufferView) :
    toBufferView (jvalOfBufferView bv) = some bv := by
  obtain ⟨o, l⟩ := bv
  have b1 : (nmByteOffset == nmByteLength) = false := by decide
  have b2 : (nmByteLength == nmByteOffset) = false := by decide
  simp [jvalOfBufferView, toBufferView, jLookup, asNat, jnumOfNat, digitsVal_printNat, b1, b2]

theorem toBuffer_jvalOfBuffer (b : Buffer) : toBuffer (jvalOfBuffer b) = some b := by
  obtain ⟨l⟩ := b
  simp [jvalOfBuffer, toBuffer, jLookup, asNat, jnumOfNat, digitsVal_printNat]

theorem toTexture_jvalOfTexture (t : Texture) : toTexture (jvalOfTexture t) = some t := by
  obtain ⟨n, nm⟩ := t
  have b1 : (nmSource == nmName) = false := by decide
  have b2 : (nmName == nmSource) = false := by decide
  cases nm with
  | none =>
    simp [jvalOfTexture, toTexture, jLookup, asNat, asStr, jnumOfNat, digitsVal_printNat,
      b1, b2]
  | some nmv =>
    simp [jvalOfTexture, toTexture, jLookup, asNat, asStr, jnumOfNat, digitsVal_printNat,
      b1, b2]

theorem docOfJVal_jvalOfDoc (d : Doc) : docOfJVal (jvalOfDoc d) = d := by
  obtain ⟨oi, ov, ob, ot⟩ := d
  have c01 : (nmImages == nmBufferViews) = false := by decide
  have c02 : (nmImages == nmBuffers) = false := by decide
  have c03 : (nmImages == nmTextures) = false := by decide
  have c10 : (nmBufferViews == nmImages) = false := by decide
  have c12 : (nmBufferViews == nmBuffers) = false := by decide
  have c13 : (nmBufferViews == nmTextures) = false := by decide
  have c20 : (nmBuffers == nmImages) = false := by decide
  have c21 : (nmBuffers == nmBufferViews) = false := by decide
  have c23 : (nmBuffers == nmTextures) = false := by decide
  have c30 : (nmTextures == nmImages) = false := by decide
  have c31 : (nmTextures == nmBufferViews) = false := by decide
  have c32 : (nmTextures == nmBuffers) = false := by decide
  have ti : ∀ l : List Image, traverseOption toImage (l.map jvalOfImage) = some l :=
    fun l => traverseOption_map toImage jvalOfImage l toImage_jvalOfImage
  have tv : ∀ l : List BufferView,
      traverseOption toBufferView (l.map jvalOfBufferView) = some l :=
    fun l => traverseOption_map toBufferView jvalOfBufferView l toBufferView_jvalOfBufferView
  have tb : ∀ l : List Buffer, traverseOption toBuffer (l.map jvalOfBuffer) = some l :=
    fun l => traverseOption_map toBuffer jvalOfBuffer l toBuffer_jvalOfBuffer
  have tt : ∀ l : List Texture, traverseOption toTexture (l.map jvalOfTexture) = some l :=
    fun l => traverseOption_map toTexture jvalOfTexture l toTexture_jvalOfTexture
  rw [jvalOfDoc, docPMembers]
  cases oi <;> cases ov <;> cases ob <;> cases ot <;>
    simp [docOfJVal, jLookup, asList, ti, tv, tb, tt,
      c01, c02, c03, c10, c12, c13, c20, c21, c23, c30, c31, c32]

theorem jfalsy_jvalOfDoc (d : Doc) : jfalsy (jvalOfDoc d) = false := rfl

theorem parseDocBytes_print_ws (d : Doc) (k : Nat) :
    parseDocBytes (printDoc d ++ List.replicate k 32) = some d := by
  rw [parseDocBytes, jparse_printDoc_ws]
  simp [docOfJVal_jvalOfDoc]

theorem parseDocBytes_print (d : Doc) : parseDocBytes (printDoc d) = some d := by
  have h := parseDocBytes_print_ws d 0
  simpa using h

/-! ## Byte-level read/write lemmas -/

theorem u32le_length (x : Nat) : (u32le x).length = 4 := rfl

theorem readU32_u32le (n : Nat) (rest : List Nat) :
    readU32 (u32le n ++ rest) 0 = some (n % 4294967296) := by
  rw [u32le, readU32]
  rw [if_pos (by simp)]
  simp [byteAt, List.getD_eq_getElem?_getD]
  omega

theorem byteAt_append_right (pre s : List Nat) (i : Nat) :
    byteAt (pre ++ s) (pre.length + i) = byteAt s i := by
  rw [byteAt, byteAt]
  congr 1
  rw [List.getD_eq_getElem?_getD, List.getD_eq_getElem?_getD,
    List.getElem?_append_right (by omega)]
  congr 2
  omega

theorem readU32_append_right (pre s : List Nat) (k : Nat) :
    readU32 (pre ++ s) (pre.length + k) = readU32 s k := by
  have hb : ∀ i, byteAt (pre ++ s) (pre.length + k + i) = byteAt s (k + i) := by
    intro i
    have h : pre.length + k + i = pre.length + (k + i) := by omega
    rw [h, byteAt_append_right]
  rw [readU32, readU32]
  by_cases h : k + 4 ≤ s.length
  · rw [if_pos (by simp only [List.length_append]; omega), if_pos h]
    have h0 := hb 0
    have h1 := hb 1
    have h2 := hb 2
    have h3 := hb 3
    simp only [Nat.add_zero] at h0
    rw [h0, h1, h2, h3]
  · rw [if_neg (by simp only [List.length_append]; omega), if_neg h]

theorem readU32_u32le_skip (x : Nat) (s : List Nat) (k : Nat) :
    readU32 (u32le x ++ s) (4 + k) = readU32 s k := by
  have := readU32_append_right (u32le x) s k
  rw [u32le_length] at this
  rw [← this]

theorem readU32_append_start (pre s : List Nat) :
    readU32 (pre ++ s) pre.length = readU32 s 0 := by
  have := readU32_append_right pre s 0
  simpa using this

theorem subarrayView_exact (pre mid post : List Nat) :
    subarrayView (pre ++ (mid ++ post)) pre.length mid.length = some mid := by
  rw [subarrayView, if_pos (by simp)]
  rw [List.drop_left, List.take_left]

theorem sliceJs_append_left (a b : List Nat) (start stop : Nat) (h : stop ≤ a.length) :
    sliceJs (a ++ b) start stop = sliceJs a start stop := by
  rw [sliceJs, sliceJs, List.take_append_of_le_length h]

theorem sliceJs_exact (pre mid post : List Nat) :
    sliceJs (pre ++ (mid ++ post)) pre.length (pre.length + mid.length) = mid := by
  rw [sliceJs]
  rw [List.take_append_eq_append_take]
  rw [List.drop_append_eq_append_drop]
  simp

/-! ## Re-parsing an emitted container -/

theorem subarrayView_suffix (pre mid : List Nat) :
    subarrayView (pre ++ mid) pre.length mid.length = some mid := by
  have := subarrayView_exact pre mid []
  simpa using this

theorem parseGlb_glbContainer (jsonBytes binBytes : List Nat) (jv : JVal)
    (hjson : jparse jsonBytes = some jv) (htruthy : jfalsy jv = false)
    (hjl : jsonBytes.length < 4294967296) (hbl : binBytes.length < 4294967296) :
    parseGlb (glbContainer jsonBytes binBytes) = Except.ok (docOfJVal jv, binBytes) := by
  obtain ⟨c, hc, hclen⟩ :
      ∃ c, u32le (12 + (8 + jsonBytes.length) + (8 + binBytes.length)) = c ∧ c.length = 4 :=
    ⟨_, rfl, rfl⟩
  have hL : glbContainer jsonBytes binBytes =
      u32le GLB_MAGIC ++ (u32le 2 ++ (c ++ (u32le jsonBytes.length ++ (u32le JSON_CHUNK_TYPE ++
        (jsonBytes ++ (u32le binBytes.length ++ (u32le BIN_CHUNK_TYPE ++ binBytes))))))) := by
    rw [glbContainer, ← hc]
    simp [List.append_assoc]
  have hcskip : ∀ (X : List Nat) (k : Nat), readU32 (c ++ X) (4 + k) = readU32 X k := by
    intro X k
    have h := readU32_append_right c X k
    rwa [hclen] at h
  have hlen : (glbContainer jsonBytes binBytes).length =
      28 + jsonBytes.length + binBytes.length := by
    rw [hL]
    simp [u32le_length, hclen]
    omega
  have h0 : readU32 (glbContainer jsonBytes binBytes) 0 = some GLB_MAGIC := by
    rw [hL, readU32_u32le]
    norm_num [GLB_MAGIC]
  have h4 : readU32 (glbContainer jsonBytes binBytes) 4 = some 2 := by
    rw [hL, show (4 : Nat) = 4 + 0 from rfl, readU32_u32le_skip, readU32_u32le]
  have h12 : readU32 (glbContainer jsonBytes binBytes) 12 = some jsonBytes.length := by
    rw [hL, show (12 : Nat) = 4 + 8 from rfl, readU32_u32le_skip,
      show (8 : Nat) = 4 + 4 from rfl, readU32_u32le_skip,
      show (4 : Nat) = 4 + 0 from rfl, hcskip, readU32_u32le, Nat.mod_eq_of_lt hjl]
  have h16 : readU32 (glbContainer jsonBytes binBytes) 16 = some JSON_CHUNK_TYPE := by
    rw [hL, show (16 : Nat) = 4 + 12 from rfl, readU32_u32le_skip,
      show (12 : Nat) = 4 + 8 from rfl, readU32_u32le_skip,
      show (8 : Nat) = 4 + 4 from rfl, hcskip,
      show (4 : Nat) = 4 + 0 from rfl, readU32_u32le_skip, readU32_u32le]
    norm_num [JSON_CHUNK_TYPE]
  have h20 : readU32 (glbContainer jsonBytes binBytes) (20 + jsonBytes.length) =
      some binBytes.length := by
    rw [hL, show 20 + jsonBytes.length = 4 + (4 + (4 + (4 + (4 + jsonBytes.length)))) from by omega,
      readU32_u32le_skip, readU32_u32le_skip, hcskip, readU32_u32le_skip, readU32_u32le_skip,
      readU32_append_start, readU32_u32le, Nat.mod_eq_of_lt hbl]
  have h24 : readU32 (glbContainer jsonBytes binBytes) (24 + jsonBytes.length) =
      some BIN_CHUNK_TYPE := by
    rw [hL, show 24 + jsonBytes.length = 4 + (4 + (4 + (4 + (4 + (jsonBytes.length + 4))))) from by
        omega,
      readU32_u32le_skip, readU32_u32le_skip, hcskip, readU32_u32le_skip, readU32_u32le_skip,
      readU32_append_right, show (4 : Nat) = 4 + 0 from rfl, readU32_u32le_skip, readU32_u32le]
    norm_num [BIN_CHUNK_TYPE]
  have hsubJ : subarrayView (glbContainer jsonBytes binBytes) 20 jsonBytes.length =
      some jsonBytes := by
    have hL2 : glbContainer jsonBytes binBytes =
        (u32le GLB_MAGIC ++ u32le 2 ++ c ++ u32le jsonBytes.length ++ u32le JSON_CHUNK_TYPE) ++
          (jsonBytes ++
            (u32le binBytes.length ++ (u32le BIN_CHUNK_TYPE ++ binBytes))) := by
      rw [hL]
      simp [List.append_assoc]
    have hp20 : (u32le GLB_MAGIC ++ u32le 2 ++ c ++ u32le jsonBytes.length ++
        u32le JSON_CHUNK_TYPE).length = 20 := by
      simp [u32le_length, hclen]
    rw [hL2, show (20 : Nat) = (u32le GLB_MAGIC ++ u32le 2 ++ c ++ u32le jsonBytes.length ++
        u32le JSON_CHUNK_TYPE).length from hp20.symm, subarrayView_exact]
  have hsubB : subarrayView (glbContainer jsonBytes binBytes) (28 + jsonBytes.length)
      binBytes.length = some binBytes := by
    have hL3 : glbContainer jsonBytes binBytes =
        (u32le GLB_MAGIC ++ u32le 2 ++ c ++ u32le jsonBytes.length ++ u32le JSON_CHUNK_TYPE ++
          jsonBytes ++ u32le binBytes.length ++ u32le BIN_CHUNK_TYPE) ++ binBytes := by
      rw [hL]
      simp [List.append_assoc]
    have hp28 : (u32le GLB_MAGIC ++ u32le 2 ++ c ++ u32le jsonBytes.length ++
        u32le JSON_CHUNK_TYPE ++ jsonBytes ++ u32le binBytes.length ++
        u32le BIN_CHUNK_TYPE).length = 28 + jsonBytes.length := by
      simp [u32le_length, hclen]
      omega
    rw [hL3, show 28 + jsonBytes.length = (u32le GLB_MAGIC ++ u32le 2 ++ c ++
        u32le jsonBytes.length ++ u32le JSON_CHUNK_TYPE ++ jsonBytes ++ u32le binBytes.length ++
        u32le BIN_CHUNK_TYPE).length from hp28.symm, subarrayView_suffix]
  have hscan : scanChunks (glbContainer jsonBytes binBytes)
      ((glbContainer jsonBytes binBytes).length + 1) 12 none none =
      Except.ok (some jv, some binBytes) := by
    rw [scanChunks]
    rw [if_pos (by omega)]
    rw [h12, h16]
    dsimp only []
    rw [if_pos rfl]
    rw [show (12 : Nat) + 8 = 20 from rfl, hsubJ]
    dsimp only []
    rw [hjson]
    dsimp only []
    rw [show (20 : Nat) + jsonBytes.length = 20 + jsonBytes.length from rfl]
    rw [show (glbContainer jsonBytes binBytes).length =
      (27 + jsonBytes.length + binBytes.length) + 1 from by omega]
    rw [scanChunks]
    rw [if_pos (by omega)]
    rw [h20]
    rw [show 20 + jsonBytes.length + 4 = 24 + jsonBytes.length from by omega]
    rw [h24]
    dsimp only []
    rw [if_neg (by norm_num [BIN_CHUNK_TYPE, JSON_CHUNK_TYPE])]
    rw [if_pos rfl]
    rw [show 20 + jsonBytes.length + 8 = 28 + jsonBytes.length from by omega, hsubB]
    dsimp only []
    rw [show (27 : Nat) + jsonBytes.length + binBytes.length =
      (26 + jsonBytes.length + binBytes.length) + 1 from by omega]
    rw [scanChunks]
    rw [if_neg (by omega)]
  rw [parseGlb, h0]
  simp only []
  rw [if_neg (by simp), h4]
  simp only []
  rw [if_neg (by simp), hscan]
  dsimp only []
  rw [htruthy]
  simp

/-! ## Rebuild lemmas: payloads, views, raw-block layout -/

theorem bvPayloads_length (ims : List Image) (repl : List (Nat × List Nat)) (bin : List Nat) :
    ∀ (bvs : List BufferView) (i0 : Nat), (bvPayloads ims repl bin bvs i0).length = bvs.length := by
  intro bvs
  induction bvs with
  | nil => intro i0; rfl
  | cons bv rest ih => intro i0; simp [bvPayloads, ih]

theorem bvPayloads_get (ims : List Image) (repl : List (Nat × List Nat)) (bin : List Nat) :
    ∀ (bvs : List BufferView) (i0 j : Nat) (bv : BufferView), bvs[j]? = some bv →
      (bvPayloads ims repl bin bvs i0)[j]? = some (bvPayload ims repl bin (i0 + j) bv) := by
  intro bvs
  induction bvs with
  | nil => intro i0 j bv h; simp at h
  | cons b rest ih =>
    intro i0 j bv h
    cases j with
    | zero =>
      simp at h
      subst h
      simp [bvPayloads]
    | succ j =>
      simp at h
      have := ih (i0 + 1) j bv h
      rw [bvPayloads]
      simp only [List.getElem?_cons_succ]
      rw [this]
      congr 2
      omega

theorem newViews_length : ∀ (ds : List (List Nat)) (off : Nat),
    (newViews ds off).length = ds.length := by
  intro ds
  induction ds with
  | nil => intro off; rfl
  | cons d rest ih => intro off; simp [newViews, ih]

theorem newViews_get : ∀ (ds : List (List Nat)) (off j : Nat) (d : List Nat), ds[j]? = some d →
    (newViews ds off)[j]? =
      some { byteOffset := off + ((ds.take j).map List.length).sum, byteLength := d.length } := by
  intro ds
  induction ds with
  | nil => intro off j d h; simp at h
  | cons hd rest ih =>
    intro off j d h
    cases j with
    | zero =>
      simp at h
      subst h
      simp [newViews]
    | succ j =>
      simp at h
      have := ih (off + hd.length) j d h
      rw [newViews]
      simp only [List.getElem?_cons_succ]
      rw [this]
      congr 2
      simp [List.take_succ_cons]
      omega

theorem newViews_take_byteLengths : ∀ (ds : List (List Nat)) (off j : Nat),
    ((newViews ds off).take j).map BufferView.byteLength = (ds.take j).map List.length := by
  intro ds
  induction ds with
  | nil => intro off j; simp [newViews]
  | cons hd rest ih =>
    intro off j
    cases j with
    | zero => simp
    | succ j => simp [newViews, List.take_succ_cons, ih]

theorem sliceJs_append_right (a b : List Nat) (x y : Nat) :
    sliceJs (a ++ b) (a.length + x) (a.length + y) = sliceJs b x y := by
  rw [sliceJs, sliceJs, List.take_append_eq_append_take]
  have h1 : a.length + y - a.length = y := by omega
  rw [h1, List.take_of_length_le (by omega : a.length ≤ (a.length + y)), List.drop_append_eq_append_drop]
  have h2 : a.length + x - a.length = x := by omega
  rw [h2, List.drop_of_length_le (by omega : a.length ≤ (a.length + x))]
  simp

theorem sliceJs_flatten_get : ∀ (ds : List (List Nat)) (j : Nat) (d : List Nat),
    ds[j]? = some d →
    sliceJs ds.flatten (((ds.take j).map List.length).sum)
      ((((ds.take j).map List.length).sum) + d.length) = d := by
  intro ds
  induction ds with
  | nil => intro j d h; simp at h
  | cons hd rest ih =>
    intro j d h
    cases j with
    | zero =>
      simp at h
      subst h
      simp [sliceJs]
    | succ j =>
      simp at h
      have := ih j d h
      simp only [List.flatten_cons, List.take_succ_cons, List.map_cons, List.sum_cons]
      have harr : hd.length + ((rest.take j).map List.length).sum + d.length =
          hd.length + (((rest.take j).map List.length).sum + d.length) := by omega
      rw [harr, sliceJs_append_right]
      exact this

theorem sum_take_add_le : ∀ (ds : List (List Nat)) (j : Nat) (d : List Nat),
    ds[j]? = some d →
    ((ds.take j).map List.length).sum + d.length ≤ (ds.map List.length).sum := by
  intro ds
  induction ds with
  | nil => intro j d h; simp at h
  | cons hd rest ih =>
    intro j d h
    cases j with
    | zero =>
      simp at h
      subst h
      simp
    | succ j =>
      simp at h
      have := ih j d h
      simp only [List.take_succ_cons, List.map_cons, List.sum_cons]
      omega

/-! ## Rebuild: explicit success and failure shapes -/

theorem rebuildParts_eq (doc : Doc) (bin : List Nat) (repl : List (Nat × List Nat))
    (ims : List Image) (bvs : List BufferView) (b0 : Buffer) (bt : List Buffer)
    (him : doc.images = some ims) (hbv : doc.bufferViews = some bvs)
    (hbuf : doc.buffers = some (b0 :: bt)) :
    rebuildParts doc bin repl = Except.ok
      ({ images := some ims,
         bufferViews := some (newViews (bvPayloads ims repl bin bvs 0) 0),
         buffers := some
           ({ byteLength := ((bvPayloads ims repl bin bvs 0).map List.length).sum } :: bt),
         textures := doc.textures },
       (bvPayloads ims repl bin bvs 0).flatten) := by
  rw [rebuildParts, parseDocBytes_print]
  simp only [him, hbv, hbuf]

theorem rebuildParts_err_images (doc : Doc) (bin : List Nat) (repl : List (Nat × List Nat))
    (h : doc.images = none) :
    rebuildParts doc bin repl = Except.error RebuildErr.imagesMissing := by
  rw [rebuildParts, parseDocBytes_print]
  simp only [h]

theorem rebuildParts_err_bufferViews (doc : Doc) (bin : List Nat)
    (repl : List (Nat × List Nat)) (ims : List Image)
    (him : doc.images = some ims) (h : doc.bufferViews = none) :
    rebuildParts doc bin repl = Except.error RebuildErr.bufferViewsMissing := by
  rw [rebuildParts, parseDocBytes_print]
  simp only [him, h]

theorem rebuildParts_err_buffers (doc : Doc) (bin : List Nat)
    (repl : List (Nat × List Nat)) (ims : List Image) (bvs : List BufferView)
    (him : doc.images = some ims) (hbv : doc.bufferViews = some bvs)
    (h : doc.buffers = none ∨ doc.buffers = some []) :
    rebuildParts doc bin repl = Except.error RebuildErr.buffersMissing := by
  rw [rebuildParts, parseDocBytes_print]
  rcases h with h | h <;> simp only [him, hbv, h]

/-! ## The bufferView-to-image map -/

theorem bvToImgFrom_none (ims : List Image) : ∀ (i0 b : Nat),
    (∀ (k : Nat) (im : Image), ims[k]? = some im → im.bufferView ≠ b) →
      bvToImgFrom ims i0 b = none := by
  induction ims with
  | nil => intro i0 b _; rfl
  | cons im rest ih =>
    intro i0 b h
    rw [bvToImgFrom]
    rw [ih (i0 + 1) b (fun (k : Nat) (imk : Image) hk => h (k + 1) imk (by simpa using hk))]
    have h0 := h 0 im (by simp)
    simp [h0]

theorem bvToImgFrom_unique (ims : List Image) : ∀ (i0 k : Nat) (im : Image),
    ims[k]? = some im →
    (∀ (k' : Nat) (im' : Image), ims[k']? = some im' → im'.bufferView = im.bufferView → k' = k) →
    bvToImgFrom ims i0 im.bufferView = some (i0 + k) := by
  induction ims with
  | nil => intro i0 k im h _; simp at h
  | cons a rest ih =>
    intro i0 k im h huniq
    cases k with
    | zero =>
      simp at h
      subst h
      rw [bvToImgFrom]
      have hrest : ∀ (k' : Nat) (im' : Image), rest[k']? = some im' → im'.bufferView ≠ a.bufferView := by
        intro k' im' hk' heq
        have := huniq (k' + 1) im' (by simpa using hk') heq
        omega
      rw [bvToImgFrom_none rest (i0 + 1) a.bufferView hrest]
      simp
    | succ k =>
      simp at h
      have hr := ih (i0 + 1) k im h (fun (k' : Nat) (im' : Image) hk' heq => by
        have := huniq (k' + 1) im' (by simpa using hk') heq
        omega)
      rw [bvToImgFrom]
      rw [hr]
      dsimp only []
      congr 1
      omega

theorem bvToImg_unique (ims : List Image) (k : Nat) (im : Image)
    (h : ims[k]? = some im)
    (huniq : ∀ (k' : Nat) (im' : Image), ims[k']? = some im' →
      im'.bufferView = im.bufferView → k' = k) :
    bvToImg ims im.bufferView = some k := by
  have := bvToImgFrom_unique ims 0 k im h huniq
  simpa [bvToImg] using this

theorem bvToImg_none (ims : List Image) (b : Nat)
    (h : ∀ (k : Nat) (im : Image), ims[k]? = some im → im.bufferView ≠ b) :
    bvToImg ims b = none := bvToImgFrom_none ims 0 b h

/-! ## Extraction loop lemmas -/

theorem extractLoop_get (bvs : List BufferView) (texs : Option (List Texture))
    (bin : List Nat) (probe : List Nat → Bool) :
    ∀ (ims : List Image) (i0 : Nat) (tis : List TexInfo),
    extractLoop bvs texs bin probe ims i0 = Except.ok tis →
    tis.length = ims.length ∧
      ∀ (k : Nat) (im : Image), ims[k]? = some im →
        ∃ ti, tis[k]? = some ti ∧ texInfoFor bvs texs bin (i0 + k) im = some ti := by
  intro ims
  induction ims with
  | nil =>
    intro i0 tis h
    rw [extractLoop] at h
    cases h
    refine ⟨rfl, ?_⟩
    intro k im hk
    simp at hk
  | cons im rest ih =>
    intro i0 tis h
    rw [extractLoop] at h
    cases hti : texInfoFor bvs texs bin i0 im with
    | none => rw [hti] at h; cases h
    | some ti =>
      rw [hti] at h
      dsimp only [] at h
      cases hpr : probe ti.data with
      | false => rw [hpr] at h; simp at h
      | true =>
        rw [hpr] at h
        simp only [if_true] at h
        cases hrec : extractLoop bvs texs bin probe rest (i0 + 1) with
        | error e => rw [hrec] at h; cases h
        | ok tl =>
          rw [hrec] at h
          cases h
          obtain ⟨hlen, hget⟩ := ih (i0 + 1) tl hrec
          refine ⟨by simp [hlen], ?_⟩
          intro k imk hk
          cases k with
          | zero =>
            simp at hk
            subst hk
            exact ⟨ti, by simp, by simpa using hti⟩
          | succ k =>
            simp at hk
            obtain ⟨ti', hti', hfor⟩ := hget k imk hk
            refine ⟨ti', by simpa using hti', ?_⟩
            have : i0 + 1 + k = i0 + (k + 1) := by omega
            rw [← this]
            exact hfor

theorem extractLoop_ok (bvs : List BufferView) (texs : Option (List Texture))
    (bin : List Nat) (probe : List Nat → Bool) (hprobe : ∀ l, probe l = true) :
    ∀ (ims : List Image) (i0 : Nat),
    (∀ (k : Nat) (im : Image), ims[k]? = some im → im.bufferView < bvs.length) →
    ∃ tis, extractLoop bvs texs bin probe ims i0 = Except.ok tis := by
  intro ims
  induction ims with
  | nil => intro i0 _; exact ⟨[], rfl⟩
  | cons im rest ih =>
    intro i0 hvalid
    have hbv : im.bufferView < bvs.length := hvalid 0 im (by simp)
    obtain ⟨bv, hbvget⟩ : ∃ b, bvs[im.bufferView]? = some b := by
      rw [List.getElem?_eq_getElem hbv]
      exact ⟨_, rfl⟩
    obtain ⟨tl, htl⟩ := ih (i0 + 1)
      (fun (k : Nat) (imk : Image) hk => hvalid (k + 1) imk (by simpa using hk))
    rw [extractLoop, texInfoFor, hbvget]
    dsimp only []
    rw [hprobe _]
    simp only [if_true]
    rw [htl]
    exact ⟨_, rfl⟩

/-! ## Parser analysis lemmas -/

theorem texInfoFor_some (bvs : List BufferView) (texs : Option (List Texture))
    (bin : List Nat) (i : Nat) (im : Image) (ti : TexInfo)
    (h : texInfoFor bvs texs bin i im = some ti) :
    ∃ bv, bvs[im.bufferView]? = some bv ∧
      ti = { index := i,
             name := jsOr (jsOrOpt (((texs.getD []).find? (fun t => t.source == i)).bind
               Texture.name) im.name) (textureDefaultName i),
             data := sliceJs bin bv.byteOffset (bv.byteOffset + bv.byteLength),
             mimeType := im.mimeType, bufferViewIndex := im.bufferView } := by
  rw [texInfoFor] at h
  cases hb : bvs[im.bufferView]? with
  | none => rw [hb] at h; cases h
  | some bv =>
    rw [hb] at h
    dsimp only [] at h
    cases h
    exact ⟨bv, rfl, rfl⟩

theorem rebuildParts_ok_shape (doc : Doc) (bin : List Nat) (repl : List (Nat × List Nat))
    (nd : Doc) (nb : List Nat)
    (h : rebuildParts doc bin repl = Except.ok (nd, nb)) :
    ∃ (ims : List Image) (bvs : List BufferView) (b0 : Buffer) (bt : List Buffer),
      doc.images = some ims ∧ doc.bufferViews = some bvs ∧ doc.buffers = some (b0 :: bt) ∧
      nd = { images := some ims,
             bufferViews := some (newViews (bvPayloads ims repl bin bvs 0) 0),
             buffers := some
               ({ byteLength := ((bvPayloads ims repl bin bvs 0).map List.length).sum } :: bt),
             textures := doc.textures } ∧
      nb = (bvPayloads ims repl bin bvs 0).flatten := by
  rcases him : doc.images with _ | ims
  · rw [rebuildParts_err_images doc bin repl him] at h; cases h
  · rcases hbv : doc.bufferViews with _ | bvs
    · rw [rebuildParts_err_bufferViews doc bin repl ims him hbv] at h; cases h
    · rcases hbuf : doc.buffers with _ | l
      · rw [rebuildParts_err_buffers doc bin repl ims bvs him hbv (Or.inl hbuf)] at h
        cases h
      · cases l with
        | nil =>
          rw [rebuildParts_err_buffers doc bin repl ims bvs him hbv (Or.inr hbuf)] at h
          cases h
        | cons b0 bt =>
          rw [rebuildParts_eq doc bin repl ims bvs b0 bt him hbv hbuf] at h
          cases h
          exact ⟨ims, bvs, b0, bt, rfl, rfl, rfl, rfl, rfl⟩

theorem bvPayload_empty_repl (ims : List Image) (bin : List Nat) (i : Nat)
    (bv : BufferView) :
    bvPayload ims [] bin i bv = sliceJs bin bv.byteOffset (bv.byteOffset + bv.byteLength) := by
  rw [bvPayload]
  cases bvToImg ims i <;> rfl

/-! ## Claim theorems -/

/-- Claim C6: rebuildGlb never mutates the caller's document.  In the
state-passing rendering `rebuildGlbCaller` (every assignment in the source
targets the fresh clone of line 141), the caller's document after the call
is unchanged; and the deep clone `JSON.parse(JSON.stringify(doc))` — the
byte-level round trip through the serializer — reproduces the document
exactly, so the clone the rebuilder mutates is an independently owned copy
equal in value to the original. -/
theorem claim_c6_rebuild_no_mutation (doc : Doc) (bin : List Nat)
    (repl : List (Nat × List Nat)) :
    (rebuildGlbCaller doc bin repl).1 = doc ∧ parseDocBytes (printDoc doc) = some doc :=
  ⟨rfl, parseDocBytes_print doc⟩

/-- Claim C10: rebuildGlb requires doc.images, doc.bufferViews and a
non-empty doc.buffers: if any is absent (or buffers is empty) it fails with
an error, and if all are present it always returns a container; in contrast
extractTextures tolerates an absent images or bufferViews by returning the
empty list. -/
theorem claim_c10_rebuild_precondition (doc : Doc) (bin : List Nat)
    (repl : List (Nat × List Nat)) (probe : List Nat → Bool) :
    ((doc.images = none ∨ doc.bufferViews = none ∨ doc.buffers = none ∨
        doc.buffers = some []) →
      ∃ e, rebuildGlb doc bin repl = Except.error e) ∧
    (∀ (ims : List Image) (bvs : List BufferView) (b0 : Buffer) (bt : List Buffer),
      doc.images = some ims → doc.bufferViews = some bvs → doc.buffers = some (b0 :: bt) →
      ∃ out, rebuildGlb doc bin repl = Except.ok out) ∧
    ((doc.images = none ∨ doc.bufferViews = none) →
      extractTextures doc bin probe = Except.ok []) := by
  refine ⟨?_, ?_, ?_⟩
  · intro h
    rcases him : doc.images with _ | ims
    · exact ⟨RebuildErr.imagesMissing,
        by rw [rebuildGlb, rebuildParts_err_images doc bin repl him]⟩
    · rcases hbv : doc.bufferViews with _ | bvs
      · exact ⟨RebuildErr.bufferViewsMissing,
          by rw [rebuildGlb, rebuildParts_err_bufferViews doc bin repl ims him hbv]⟩
      · have hb : doc.buffers = none ∨ doc.buffers = some [] := by
          rcases h with h | h | h | h
          · rw [him] at h; cases h
          · rw [hbv] at h; cases h
          · exact Or.inl h
          · exact Or.inr h
        exact ⟨RebuildErr.buffersMissing,
          by rw [rebuildGlb, rebuildParts_err_buffers doc bin repl ims bvs him hbv hb]⟩
  · intro ims bvs b0 bt him hbv hbuf
    exact ⟨_, by rw [rebuildGlb, rebuildParts_eq doc bin repl ims bvs b0 bt him hbv hbuf]⟩
  · intro h
    rcases h with h | h
    · rcases hbv : doc.bufferViews with _ | bvs <;> rw [extractTextures, h, hbv]
    · rcases him : doc.images with _ | ims <;> rw [extractTextures, him, h]

theorem claim_c10_witness :
    (∃ e, rebuildGlb { images := none, bufferViews := none, buffers := none, textures := none }
      [] [] = Except.error e) ∧
    (∃ out, rebuildGlb
      { images := some [{ bufferView := 0, mimeType := [112], name := none }],
        bufferViews := some [{ byteOffset := 0, byteLength := 2 }],
        buffers := some [{ byteLength := 2 }], textures := none }
      [5, 6] [] = Except.ok out) ∧
    extractTextures { images := none, bufferViews := none, buffers := none, textures := none }
      [] (fun _ => true) = Except.ok [] :=
  ⟨(claim_c10_rebuild_precondition _ [] [] (fun _ => true)).1 (Or.inl rfl),
   (claim_c10_rebuild_precondition _ [5, 6] [] (fun _ => true)).2.1 _ _ _ _ rfl rfl rfl,
   (claim_c10_rebuild_precondition _ [] [] (fun _ => true)).2.2 (Or.inl rfl)⟩

/-- Claim C8: name resolution of extracted handles.  For every handle the
extractor returns at image index i, its name is the name of the first
textures[] entry whose source equals i; when no such entry exists or it
provides no (non-empty) name, the name falls back to images[i].name, and
when that is also absent (or empty — JS `||` treats the empty string as
absent), to the template "Texture {i}" (`textureDefaultName`). -/
theorem claim_c8_name_resolution (doc : Doc) (bin : List Nat) (probe : List Nat → Bool)
    (ims : List Image) (tis : List TexInfo)
    (him : doc.images = some ims)
    (hok : extractTextures doc bin probe = Except.ok tis) :
    ∀ (i : Nat) (ti : TexInfo), tis[i]? = some ti →
      ∃ im, ims[i]? = some im ∧
        ti.name = jsOr (jsOrOpt (((doc.textures.getD []).find? (fun t => t.source == i)).bind
          Texture.name) im.name) (textureDefaultName i) := by
  rw [extractTextures, him] at hok
  rcases hbv : doc.bufferViews with _ | bvs
  · rw [hbv] at hok
    cases hok
    intro i ti hti
    simp at hti
  · rw [hbv] at hok
    obtain ⟨hlen, hget⟩ := extractLoop_get bvs doc.textures bin probe ims 0 tis hok
    intro i ti hti
    have hi : i < tis.length := by
      by_contra hge
      rw [List.getElem?_eq_none (by omega)] at hti
      cases hti
    have him2 : ∃ im, ims[i]? = some im := by
      have hlt : i < ims.length := by omega
      exact ⟨_, List.getElem?_eq_getElem hlt⟩
    obtain ⟨im, him2⟩ := him2
    obtain ⟨ti', hti', hfor⟩ := hget i im him2
    rw [hti] at hti'
    cases hti'
    obtain ⟨bv, _, hrec⟩ := texInfoFor_some bvs doc.textures bin (0 + i) im ti hfor
    refine ⟨im, him2, ?_⟩
    rw [hrec]
    simp

theorem claim_c8_witness :
    ∃ im, imsW[0]? = some im ∧
      tiC8.name = jsOr (jsOrOpt (((docC8.textures.getD []).find?
        (fun t => t.source == 0)).bind Texture.name) im.name) (textureDefaultName 0) :=
  claim_c8_name_resolution docC8 [7] (fun _ => true) imsW [tiC8] rfl (by decide) 0 tiC8
    (by decide)

/-- Claim C7 counterexample: on a document whose image bufferView declares a
range (0..100) far beyond the one-byte raw block, extractTextures does NOT
fail with a RangeError — the slice clamps and the whole batch succeeds with
the truncated bytes. -/
theorem claim_c7_counterexample :
    docC7.bufferViews = some [{ byteOffset := 0, byteLength := 100 }] ∧
    0 + 100 > ([7] : List Nat).length ∧
    extractTextures docC7 [7] (fun _ => true) =
      Except.ok [{ index := 0, name := textureDefaultName 0, data := [7],
                   mimeType := sampleMime, bufferViewIndex := 0 }] := by
  refine ⟨by decide, by decide, by decide⟩

/-- Claim C7 (amended): extractTextures performs no byte-range check — a
declared range exceeding the raw block is clamped by the slice, not
rejected.  Whenever every image's bufferView INDEX is valid and the decode
probe accepts, extraction succeeds for the whole batch and each handle's
bytes are exactly the clamped slice `rawBlock[byteOffset ..
min(byteOffset+byteLength, length))`. -/
theorem claim_c7_extract_clamps (doc : Doc) (bin : List Nat) (probe : List Nat → Bool)
    (ims : List Image) (bvs : List BufferView)
    (him : doc.images = some ims) (hbv : doc.bufferViews = some bvs)
    (hvalid : ∀ (k : Nat) (im : Image), ims[k]? = some im → im.bufferView < bvs.length)
    (hprobe : ∀ l, probe l = true) :
    ∃ tis, extractTextures doc bin probe = Except.ok tis ∧ tis.length = ims.length ∧
      ∀ (k : Nat) (im : Image) (bv : BufferView), ims[k]? = some im →
        bvs[im.bufferView]? = some bv →
        ∃ ti, tis[k]? = some ti ∧
          ti.data = sliceJs bin bv.byteOffset (bv.byteOffset + bv.byteLength) := by
  obtain ⟨tis, htis⟩ := extractLoop_ok bvs doc.textures bin probe hprobe ims 0 hvalid
  obtain ⟨hlen, hget⟩ := extractLoop_get bvs doc.textures bin probe ims 0 tis htis
  refine ⟨tis, by rw [extractTextures, him, hbv]; exact htis, hlen, ?_⟩
  intro k im bv hk hbvk
  obtain ⟨ti, hti, hfor⟩ := hget k im hk
  obtain ⟨bv', hbv', hrec⟩ := texInfoFor_some bvs doc.textures bin (0 + k) im ti hfor
  rw [hbvk] at hbv'
  cases hbv'
  exact ⟨ti, hti, by rw [hrec]⟩

theorem claim_c7_extract_clamps_witness :
    ∃ tis, extractTextures docC7 [7] (fun _ => true) = Except.ok tis ∧
      tis.length = imsW.length ∧
      ∀ (k : Nat) (im : Image) (bv : BufferView), imsW[k]? = some im →
        [({ byteOffset := 0, byteLength := 100 } : BufferView)][im.bufferView]? = some bv →
        ∃ ti, tis[k]? = some ti ∧
          ti.data = sliceJs [7] bv.byteOffset (bv.byteOffset + bv.byteLength) :=
  claim_c7_extract_clamps docC7 [7] (fun _ => true) imsW
    [{ byteOffset := 0, byteLength := 100 }] rfl rfl
    (by
      intro k im hk
      cases k with
      | zero =>
        simp [imsW] at hk
        subst hk
        decide
      | succ k => simp [imsW] at hk)
    (fun l => rfl)

/-- Claim C2: offset consistency of the rebuilt document.  Whenever
rebuildGlb returns, the emitted container embeds the serialized rebuilt
document, in which every bufferView's byteOffset equals the sum of the
byteLengths of all earlier bufferViews (offsets are recomputed sequentially
from scratch, no original offset is reused), and every view's range ends
within buffers[0].byteLength. -/
theorem claim_c2_offset_consistency (doc : Doc) (bin : List Nat)
    (repl : List (Nat × List Nat)) (out : List Nat)
    (hok : rebuildGlb doc bin repl = Except.ok out) :
    ∃ (nd : Doc) (nb : List Nat) (nbvs : List BufferView) (b0 : Buffer) (bt : List Buffer),
      rebuildParts doc bin repl = Except.ok (nd, nb) ∧
      out = glbContainer (padTo4Spaces (printDoc nd)) (padTo4Zeros nb) ∧
      nd.bufferViews = some nbvs ∧ nd.buffers = some (b0 :: bt) ∧
      ∀ (j : Nat) (bv : BufferView), nbvs[j]? = some bv →
        bv.byteOffset = ((nbvs.take j).map BufferView.byteLength).sum ∧
        bv.byteOffset + bv.byteLength ≤ b0.byteLength := by
  rw [rebuildGlb] at hok
  cases hparts : rebuildParts doc bin repl with
  | error e => rw [hparts] at hok; cases hok
  | ok p =>
    obtain ⟨nd, nb⟩ := p
    rw [hparts] at hok
    dsimp only [] at hok
    cases hok
    obtain ⟨ims, bvs, b0, bt, him, hbv, hbuf, hnd, hnb⟩ :=
      rebuildParts_ok_shape doc bin repl nd nb hparts
    subst hnd hnb
    refine ⟨_, _, newViews (bvPayloads ims repl bin bvs 0) 0,
      { byteLength := ((bvPayloads ims repl bin bvs 0).map List.length).sum }, bt,
      rfl, rfl, rfl, rfl, ?_⟩
    intro j bv hj
    have hjlt : j < (newViews (bvPayloads ims repl bin bvs 0) 0).length := by
      by_contra hge
      rw [List.getElem?_eq_none (by omega)] at hj
      cases hj
    rw [newViews_length] at hjlt
    obtain ⟨d, hd⟩ : ∃ d, (bvPayloads ims repl bin bvs 0)[j]? = some d :=
      ⟨_, List.getElem?_eq_getElem hjlt⟩
    have hview := newViews_get (bvPayloads ims repl bin bvs 0) 0 j d hd
    rw [hj] at hview
    injection hview with hview
    subst hview
    constructor
    · dsimp only []
      rw [newViews_take_byteLengths]
      omega
    · have hle := sum_take_add_le (bvPayloads ims repl bin bvs 0) j d hd
      dsimp only []
      omega

set_option maxRecDepth 4000 in
theorem claim_c2_offset_consistency_witness :
    ∃ (nd : Doc) (nb : List Nat) (nbvs : List BufferView) (b0 : Buffer) (bt : List Buffer),
      rebuildParts docW [1, 2, 3, 4] [] = Except.ok (nd, nb) ∧
      outW = glbContainer (padTo4Spaces (printDoc nd)) (padTo4Zeros nb) ∧
      nd.bufferViews = some nbvs ∧ nd.buffers = some (b0 :: bt) ∧
      ∀ (j : Nat) (bv : BufferView), nbvs[j]? = some bv →
        bv.byteOffset = ((nbvs.take j).map BufferView.byteLength).sum ∧
        bv.byteOffset + bv.byteLength ≤ b0.byteLength :=
  claim_c2_offset_consistency docW [1, 2, 3, 4] [] outW (by decide)

set_option maxRecDepth 4000 in
/-- Claim C3 counterexample: when two images share one bufferView, the
forEach map keeps only the LAST image index, so a replacement supplied for
the first image (index 0, present in the map with payload [9,9]) is
silently ignored: the rebuilt raw block still holds the original byte [7]
at the view's new range, not the replacement payload. -/
theorem claim_c3_counterexample :
    List.lookup 0 [(0, ([9, 9] : List Nat))] = some [9, 9] ∧
    rebuildParts docC3 [7] [(0, [9, 9])] =
      Except.ok
        ({ images := docC3.images,
           bufferViews := some [{ byteOffset := 0, byteLength := 1 }],
           buffers := some [{ byteLength := 1 }],
           textures := none }, [7]) ∧
    sliceJs [7] 0 (0 + 1) ≠ [9, 9] := by
  refine ⟨by decide, by decide, by decide⟩

/-- Claim C3 (amended): replacement precedence, provided distinct images
reference distinct bufferViews (the map from image index to bufferView is
injective) and the image's bufferView index is valid.  Then for every image
index i, the rebuilt raw block at the new range of bufferView
images[i].bufferView is exactly the replacement payload when i is in the
map (with byteLength updated to its size), and exactly the original bytes
sliced from the input raw block when i is absent. -/
theorem claim_c3_replacement_precedence (doc : Doc) (bin : List Nat)
    (repl : List (Nat × List Nat)) (nd : Doc) (nb : List Nat)
    (ims : List Image) (bvs : List BufferView)
    (him : doc.images = some ims) (hbv : doc.bufferViews = some bvs)
    (hok : rebuildParts doc bin repl = Except.ok (nd, nb))
    (hinj : ∀ (k1 k2 : Nat) (im1 im2 : Image), ims[k1]? = some im1 → ims[k2]? = some im2 →
      im1.bufferView = im2.bufferView → k1 = k2) :
    ∀ (i : Nat) (im : Image), ims[i]? = some im → im.bufferView < bvs.length →
      ∃ (nbvs : List BufferView) (nbv : BufferView) (bv : BufferView),
        nd.bufferViews = some nbvs ∧ bvs[im.bufferView]? = some bv ∧
        nbvs[im.bufferView]? = some nbv ∧
        nbv.byteLength = (match List.lookup i repl with
          | some dta => dta
          | none => sliceJs bin bv.byteOffset (bv.byteOffset + bv.byteLength)).length ∧
        sliceJs nb nbv.byteOffset (nbv.byteOffset + nbv.byteLength) =
          (match List.lookup i repl with
           | some dta => dta
           | none => sliceJs bin bv.byteOffset (bv.byteOffset + bv.byteLength)) := by
  obtain ⟨ims2, bvs2, b0, bt, him2, hbv2, hbuf2, hnd, hnb⟩ :=
    rebuildParts_ok_shape doc bin repl nd nb hok
  rw [him] at him2
  injection him2 with him2
  subst him2
  rw [hbv] at hbv2
  injection hbv2 with hbv2
  subst hbv2
  subst hnd hnb
  intro i im hi hvalid
  obtain ⟨bv, hbvget⟩ : ∃ bv, bvs[im.bufferView]? = some bv :=
    ⟨_, List.getElem?_eq_getElem hvalid⟩
  have howner : bvToImg ims im.bufferView = some i :=
    bvToImg_unique ims i im hi
      (fun k' im' hk' heq => hinj k' i im' im hk' hi heq)
  have hd : (bvPayloads ims repl bin bvs 0)[im.bufferView]? =
      some (bvPayload ims repl bin (0 + im.bufferView) bv) :=
    bvPayloads_get ims repl bin bvs 0 im.bufferView bv hbvget
  rw [Nat.zero_add] at hd
  have hpay : bvPayload ims repl bin im.bufferView bv =
      (match List.lookup i repl with
       | some dta => dta
       | none => sliceJs bin bv.byteOffset (bv.byteOffset + bv.byteLength)) := by
    rw [bvPayload, howner]
  have hview := newViews_get (bvPayloads ims repl bin bvs 0) 0 im.bufferView _ hd
  refine ⟨_, _, bv, rfl, hbvget, hview, ?_, ?_⟩
  · rw [hpay]
  · have hslice := sliceJs_flatten_get (bvPayloads ims repl bin bvs 0) im.bufferView _ hd
    dsimp only []
    rw [Nat.zero_add]
    rw [hslice, hpay]

set_option maxRecDepth 4000 in
theorem claim_c3_replacement_precedence_witness :
    ∃ (nbvs : List BufferView) (nbv : BufferView) (bv : BufferView),
      ({ images := docC3W.images,
         bufferViews := some [{ byteOffset := 0, byteLength := 2 },
                              { byteOffset := 2, byteLength := 2 }],
         buffers := some [{ byteLength := 4 }],
         textures := none } : Doc).bufferViews = some nbvs ∧
      [({ byteOffset := 0, byteLength := 1 } : BufferView),
       { byteOffset := 1, byteLength := 2 }][0]? = some bv ∧
      nbvs[0]? = some nbv ∧
      nbv.byteLength = (match List.lookup 0 [(0, ([5, 6] : List Nat))] with
        | some dta => dta
        | none => sliceJs [7, 8, 9] bv.byteOffset (bv.byteOffset + bv.byteLength)).length ∧
      sliceJs [5, 6, 8, 9] nbv.byteOffset (nbv.byteOffset + nbv.byteLength) =
        (match List.lookup 0 [(0, ([5, 6] : List Nat))] with
         | some dta => dta
         | none => sliceJs [7, 8, 9] bv.byteOffset (bv.byteOffset + bv.byteLength)) := by
  have happ := claim_c3_replacement_precedence docC3W [7, 8, 9] [(0, [5, 6])]
    { images := docC3W.images,
      bufferViews := some [{ byteOffset := 0, byteLength := 2 },
                           { byteOffset := 2, byteLength := 2 }],
      buffers := some [{ byteLength := 4 }],
      textures := none }
    [5, 6, 8, 9]
    [{ bufferView := 0, mimeType := sampleMime, name := none },
     { bufferView := 1, mimeType := sampleMime, name := none }]
    [{ byteOffset := 0, byteLength := 1 }, { byteOffset := 1, byteLength := 2 }]
    rfl rfl (by decide)
    (by
      intro k1 k2 im1 im2 h1 h2 heq
      cases k1 with
      | zero =>
        cases k2 with
        | zero => rfl
        | succ k2 =>
          cases k2 with
          | zero => cases h1; cases h2; simp at heq
          | succ k2 => simp at h2
      | succ k1 =>
        cases k1 with
        | zero =>
          cases k2 with
          | zero => cases h1; cases h2; simp at heq
          | succ k2 =>
            cases k2 with
            | zero => rfl
            | succ k2 => simp at h2
        | succ k1 => simp at h1)
    0 { bufferView := 0, mimeType := sampleMime, name := none } (by decide) (by decide)
  exact happ

/-- Claim C9: bufferViews owned by no image are preserved.  For every
bufferView index j that is not the bufferView of any entry of doc.images,
rebuildGlb copies that view's original bytes from the raw block unchanged
into the new raw block at its position in bufferView-index order, with its
byteOffset recomputed sequentially (the sum of the preceding new
byteLengths) like every other view — never dropped or mis-keyed. -/
theorem claim_c9_unowned_views_preserved (doc : Doc) (bin : List Nat)
    (repl : List (Nat × List Nat)) (nd : Doc) (nb : List Nat)
    (ims : List Image) (bvs : List BufferView)
    (him : doc.images = some ims) (hbv : doc.bufferViews = some bvs)
    (hok : rebuildParts doc bin repl = Except.ok (nd, nb)) :
    ∀ (j : Nat) (bv : BufferView), bvs[j]? = some bv →
      (∀ (k : Nat) (im : Image), ims[k]? = some im → im.bufferView ≠ j) →
      ∃ (nbvs : List BufferView) (nbv : BufferView),
        nd.bufferViews = some nbvs ∧ nbvs[j]? = some nbv ∧
        nbv.byteOffset = ((nbvs.take j).map BufferView.byteLength).sum ∧
        sliceJs nb nbv.byteOffset (nbv.byteOffset + nbv.byteLength) =
          sliceJs bin bv.byteOffset (bv.byteOffset + bv.byteLength) := by
  obtain ⟨ims2, bvs2, b0, bt, him2, hbv2, hbuf2, hnd, hnb⟩ :=
    rebuildParts_ok_shape doc bin repl nd nb hok
  rw [him] at him2
  injection him2 with him2
  subst him2
  rw [hbv] at hbv2
  injection hbv2 with hbv2
  subst hbv2
  subst hnd hnb
  intro j bv hj hunowned
  have howner : bvToImg ims j = none := bvToImg_none ims j hunowned
  have hd : (bvPayloads ims repl bin bvs 0)[j]? =
      some (bvPayload ims repl bin (0 + j) bv) :=
    bvPayloads_get ims repl bin bvs 0 j bv hj
  rw [Nat.zero_add] at hd
  have hpay : bvPayload ims repl bin j bv =
      sliceJs bin bv.byteOffset (bv.byteOffset + bv.byteLength) := by
    rw [bvPayload, howner]
  have hview := newViews_get (bvPayloads ims repl bin bvs 0) 0 j _ hd
  refine ⟨_, _, rfl, hview, ?_, ?_⟩
  · dsimp only []
    rw [newViews_take_byteLengths]
    omega
  · have hslice := sliceJs_flatten_get (bvPayloads ims repl bin bvs 0) j _ hd
    dsimp only []
    rw [Nat.zero_add]
    rw [hslice, hpay]

set_option maxRecDepth 4000 in
theorem claim_c9_unowned_views_preserved_witness :
    ∃ (nbvs : List BufferView) (nbv : BufferView),
      ({ images := some imsW,
         bufferViews := some [{ byteOffset := 0, byteLength := 1 },
                              { byteOffset := 1, byteLength := 2 }],
         buffers := some [{ byteLength := 3 }],
         textures := none } : Doc).bufferViews = some nbvs ∧
      nbvs[1]? = some nbv ∧
      nbv.byteOffset = ((nbvs.take 1).map BufferView.byteLength).sum ∧
      sliceJs [7, 8, 9] nbv.byteOffset (nbv.byteOffset + nbv.byteLength) =
        sliceJs [7, 8, 9] 1 (1 + 2) :=
  claim_c9_unowned_views_preserved docC9 [7, 8, 9] []
    { images := some imsW,
      bufferViews := some [{ byteOffset := 0, byteLength := 1 },
                           { byteOffset := 1, byteLength := 2 }],
      buffers := some [{ byteLength := 3 }],
      textures := none }
    [7, 8, 9] imsW
    [{ byteOffset := 0, byteLength := 1 }, { byteOffset := 1, byteLength := 2 }]
    rfl rfl (by decide) 1 { byteOffset := 1, byteLength := 2 } (by decide)
    (by
      intro k im hk
      cases k with
      | zero =>
        simp [imsW] at hk
        subst hk
        decide
      | succ k => simp [imsW] at hk)

set_option maxRecDepth 8000 in
/-- Claim C1 counterexample: a container whose JSON chunk is the empty
object "\x7b\x7d" is accepted by parseGlb (both chunks present, magic and
version good), but rebuildGlb on the parsed document fails (the TypeError
of images.forEach on an absent images) instead of producing a container —
so the round trip does not hold for every accepted input. -/
theorem claim_c1_counterexample :
    parseGlb (glbContainer (printDoc emptyDoc) []) = Except.ok (emptyDoc, []) ∧
    rebuildGlb emptyDoc [] [] = Except.error RebuildErr.imagesMissing := by
  refine ⟨by decide, by decide⟩

set_option maxRecDepth 1024 in
/-- Claim C1 (amended): round-trip identity for accepted inputs on which the
rebuild step returns (the parsed document has images, bufferViews and a
non-empty buffers) and whose rebuilt chunks fit the u32 header fields.
Rebuilding with the empty replacement map yields a container that re-parses
successfully to the rebuilt document, whose images equal the original's and
whose bufferViews, index by index, cover in the new raw block exactly the
bytes of the original declared range in the original raw block (padding
aside). -/
theorem claim_c1_roundtrip (x : List Nat) (doc : Doc) (bin : List Nat)
    (nd : Doc) (nb : List Nat)
    (hp : parseGlb x = Except.ok (doc, bin))
    (hparts : rebuildParts doc bin [] = Except.ok (nd, nb))
    (hjl : (padTo4Spaces (printDoc nd)).length < 4294967296)
    (hbl : (padTo4Zeros nb).length < 4294967296) :
    ∃ out, rebuildGlb doc bin [] = Except.ok out ∧
      ∃ bin2, parseGlb out = Except.ok (nd, bin2) ∧
        nd.images = doc.images ∧
        ∃ (bvs nbvs : List BufferView), doc.bufferViews = some bvs ∧
          nd.bufferViews = some nbvs ∧ nbvs.length = bvs.length ∧
          ∀ (j : Nat) (bv nbv : BufferView), bvs[j]? = some bv → nbvs[j]? = some nbv →
            sliceJs bin2 nbv.byteOffset (nbv.byteOffset + nbv.byteLength) =
              sliceJs bin bv.byteOffset (bv.byteOffset + bv.byteLength) := by
  obtain ⟨ims, bvs, b0, bt, him, hbv, hbuf, hnd, hnb⟩ :=
    rebuildParts_ok_shape doc bin [] nd nb hparts
  have hpg : parseGlb (glbContainer (padTo4Spaces (printDoc nd)) (padTo4Zeros nb)) =
      Except.ok (nd, padTo4Zeros nb) := by
    have h := parseGlb_glbContainer (padTo4Spaces (printDoc nd)) (padTo4Zeros nb)
      (jvalOfDoc nd) (by rw [padTo4Spaces]; exact jparse_printDoc_ws _ _)
      (jfalsy_jvalOfDoc nd) hjl hbl
    rwa [docOfJVal_jvalOfDoc] at h
  subst hnd hnb
  refine ⟨_, by rw [rebuildGlb, hparts], _, hpg,
    him.symm, bvs, _, hbv, rfl, by rw [newViews_length, bvPayloads_length], ?_⟩
  intro j bv nbv hj hnbv
  have hd : (bvPayloads ims [] bin bvs 0)[j]? = some (bvPayload ims [] bin (0 + j) bv) :=
    bvPayloads_get ims [] bin bvs 0 j bv hj
  rw [Nat.zero_add] at hd
  have hview := newViews_get (bvPayloads ims [] bin bvs 0) 0 j _ hd
  rw [hnbv] at hview
  have hview2 : nbv = _ := Option.some_inj.mp hview
  subst hview2
  have hslice := sliceJs_flatten_get (bvPayloads ims [] bin bvs 0) j _ hd
  have hle := sum_take_add_le (bvPayloads ims [] bin bvs 0) j _ hd
  dsimp only []
  rw [Nat.zero_add, padTo4Zeros,
    sliceJs_append_left _ _ _ _ (by rw [List.length_flatten]; omega),
    hslice, bvPayload_empty_repl]

set_option maxRecDepth 40000 in
theorem claim_c1_roundtrip_witness :
    ∃ out, rebuildGlb docW [1, 2, 3, 4] [] = Except.ok out ∧
      ∃ bin2, parseGlb out = Except.ok (docW, bin2) ∧
        docW.images = docW.images ∧
        ∃ (bvs nbvs : List BufferView), docW.bufferViews = some bvs ∧
          docW.bufferViews = some nbvs ∧ nbvs.length = bvs.length ∧
          ∀ (j : Nat) (bv nbv : BufferView), bvs[j]? = some bv → nbvs[j]? = some nbv →
            sliceJs bin2 nbv.byteOffset (nbv.byteOffset + nbv.byteLength) =
              sliceJs [1, 2, 3, 4] bv.byteOffset (bv.byteOffset + bv.byteLength) :=
  claim_c1_roundtrip (glbContainer (printDoc docW) [1, 2, 3, 4]) docW [1, 2, 3, 4]
    docW [1, 2, 3, 4] (by decide) (by decide) (by decide) (by decide)

set_option maxRecDepth 8000 in
/-- Claim C4 is refuted by the code as written (the claim states the
intent): on a document whose serialized JSON contains a non-ASCII character
(an image named U+00E9, two UTF-8 bytes but one UTF-16 code unit), the
padding is computed from the JS string length, so the emitted JSON chunk's
stored length — the u32 at offset 12 of the container — is 141, which is
1 mod 4, not a multiple of 4. -/
theorem claim_c4_alignment_bug :
    (rebuildGlb docC4 [7] []).toOption.map (fun out => readU32 out 12) =
      some (some 141) ∧
    141 % 4 = 1 := by
  refine ⟨by decide, by decide⟩
